import Mathlib

/-!
Verification of the battleship CSP solver (battle.py): a shallow embedding
of the cell/variable model, the four constraint kinds, preprocessing,
forward checking and the backtracking search driver, together with theorems
settling the specification claims.

Conventions of the embedding:
* Symbols are the source's characters: water is the period, submarine S,
  top caret, bottom v, left angle, right angle, middle M.
* A cell's mutable fields (static domain, current domain, assigned value,
  ship flag) form `CellData`; the board state maps coordinates to cells.
* Python raises no exception in `setValue` or `pruneValue` (both print a
  message and continue); the `Except PyErr` wrappers make that exception
  channel explicit: they always return `.ok` together with a flag telling
  whether the error message was printed.
* The source stores `is_ship = None` at frame exit; since the flag is only
  ever used for its truthiness (counting), `None` is modelled as `false`.
-/

namespace Battle

abbrev Pos := Int × Int

/-- The characters of the symbol alphabet, as in battle.py. -/
def char_submarine : Char := 'S'

def char_water : Char := '.'

def char_left : Char := '<'

def char_right : Char := '>'

def char_top : Char := '^'

def char_bottom : Char := 'v'

def char_middle : Char := 'M'

/-- Mutable per-cell data of `Cell(Variable)`: static domain `_dom`,
current domain `_curdom`, assigned `_value`, and the `is_ship` flag. -/
structure CellData where
  dom : List Char
  curdom : List Char
  value : Option Char
  is_ship : Bool
deriving DecidableEq, Repr

/-- The Python exception channel: the names of the failures the spec
assigns to domain violations and prune misses. -/
inductive PyErr where
  | DomainError
  | PruneError
deriving DecidableEq, Repr

/-- `Variable.setValue`: if the value is not None and not in the static
domain, print an error message (flag `true`) and leave the cell unchanged;
otherwise store the value.  The source raises nothing, so the result is
always `.ok`. -/
def cellSetValueE (cd : CellData) (v : Option Char) : Except PyErr (CellData × Bool) :=
  match v with
  | none => .ok ({ cd with value := none }, false)
  | some x =>
    if x ∈ cd.dom then .ok ({ cd with value := some x }, false)
    else .ok (cd, true)

/-- The pure state effect of `setValue` (the printed flag dropped). -/
def cellSetValue (cd : CellData) (v : Option Char) : CellData :=
  match cellSetValueE cd v with
  | .ok (cd', _) => cd'
  | .error _ => cd

/-- `Variable.pruneValue`: `self._curdom.remove(value)` under try/except;
a missing value is caught, a message is printed (flag `true`) and the
current domain is left unchanged.  The source raises nothing. -/
def cellPruneValueE (cd : CellData) (v : Char) : Except PyErr (CellData × Bool) :=
  if v ∈ cd.curdom then .ok ({ cd with curdom := cd.curdom.erase v }, false)
  else .ok (cd, true)

/-- The pure state effect of `pruneValue`. -/
def cellPruneValue (cd : CellData) (v : Char) : CellData :=
  match cellPruneValueE cd v with
  | .ok (cd', _) => cd'
  | .error _ => cd

/-- `Variable.curDomain`: the assigned value as a singleton when assigned,
otherwise the live current domain. -/
def cellCurDomain (cd : CellData) : List Char :=
  match cd.value with
  | some v => [v]
  | none => cd.curdom

/-- A sample cell used by the concrete counterexamples: a pre-placed
submarine clue, whose static domain is the singleton S. -/
def subClueCell : CellData :=
  { dom := ['S'], curdom := ['S'], value := some 'S', is_ship := true }

/-- The four constraint kinds of battle.py.  RowConstraint and
ColConstraint carry a limit and an ordered scope; ShipConstraint carries
the four fleet targets and its scope (the whole cell list); the
WaterConstraint (adjacency) carries the board width and height and its
scope. -/
inductive Cnstr where
  | row (limit : Nat) (scope : List Pos)
  | col (limit : Nat) (scope : List Pos)
  | ship (submarine destroyers cruisers battleships : Nat) (scope : List Pos)
  | water (width height : Nat) (scope : List Pos)
deriving DecidableEq, Repr

/-- The ordered scope of a constraint. -/
def Cnstr.scope : Cnstr → List Pos
  | .row _ sc => sc
  | .col _ sc => sc
  | .ship _ _ _ _ sc => sc
  | .water _ _ sc => sc

/-- Whether the constraint is the WaterConstraint (adjacency). -/
def Cnstr.isWater : Cnstr → Bool
  | .water _ _ _ => true
  | _ => false

/-- Whether the constraint is a RowConstraint or ColConstraint. -/
def Cnstr.isRowCol : Cnstr → Bool
  | .row _ _ => true
  | .col _ _ => true
  | _ => false

/-- The whole solver state: the board (CELL_DICT as a total map from
coordinates to cell data, plus the cell enumeration order of
`board.cells`), the constraint list of the CSP, and the per-cell
`cell.constraint` back-references.  Only `cellData` ever mutates. -/
structure State where
  width : Nat
  cells : List Pos
  cellData : Pos → CellData
  constraints : List Cnstr
  cellCnstr : Pos → List Cnstr

/-- Replace the data of one cell (mutation of one Cell object). -/
def State.setCell (s : State) (p : Pos) (cd : CellData) : State :=
  { s with cellData := fun q => if q = p then cd else s.cellData q }

/-- The assigned value of the cell at `p`. -/
def State.value (s : State) (p : Pos) : Option Char := (s.cellData p).value

/-- The live current domain (`_curdom`) of the cell at `p`. -/
def State.curdom (s : State) (p : Pos) : List Char := (s.cellData p).curdom

/-- The current-domain size used by the MRV scan (`len(c._curdom)`). -/
def curLen (s : State) (p : Pos) : Nat := (s.cellData p).curdom.length

/-- `check_if_spot_valid`: both coordinates within `0 .. width-1`. -/
def check_if_spot_valid (width : Nat) (x y : Int) : Bool :=
  decide (0 ≤ x) && decide (x ≤ (width : Int) - 1) &&
    decide (0 ≤ y) && decide (y ≤ (width : Int) - 1)

/-- Count of `is_ship` cells in a scope (the body of RowConstraint.check
and ColConstraint.check). -/
def countShips (s : State) (scope : List Pos) : Nat :=
  scope.foldl (fun n p => if (s.cellData p).is_ship then n + 1 else n) 0

/-- RowConstraint.check / ColConstraint.check: 0 when the segment count
meets the limit exactly, 1 when under, 2 when over. -/
def rowColCheck (s : State) (limit : Nat) (scope : List Pos) : Nat :=
  let count := countShips s scope
  if count = limit then 0 else if count < limit then 1 else 2

/-- Accumulator of the two ship-shape scans in ShipConstraint.check:
the four running shape counts, the run counter, and the early-return
flag raised the moment a count exceeds its target. -/
structure ShipScan where
  submarine : Nat
  destroyers : Nat
  cruisers : Nat
  battleships : Nat
  counter : Nat
  failed : Bool
deriving DecidableEq, Repr

/-- One step of the left-to-right scan over the scope (counter1 logic). -/
def shipHStep (sT dT cT bT : Nat) (acc : ShipScan) (v : Option Char) : ShipScan :=
  if acc.failed then acc
  else if v = some char_submarine then
    let n := acc.submarine + 1
    { acc with submarine := n, failed := n > sT }
  else if v = some char_left then { acc with counter := 0 }
  else if v = some char_middle then { acc with counter := acc.counter + 1 }
  else if v = some char_right then
    if acc.counter = 0 then
      let n := acc.destroyers + 1
      { acc with destroyers := n, failed := n > dT }
    else if acc.counter = 1 then
      let n := acc.cruisers + 1
      { acc with cruisers := n, failed := n > cT }
    else if acc.counter = 2 then
      let n := acc.battleships + 1
      { acc with battleships := n, failed := n > bT }
    else acc
  else acc

/-- One step of the top-to-bottom column scan (counter2 logic). -/
def shipVStep (dT cT bT : Nat) (acc : ShipScan) (v : Option Char) : ShipScan :=
  if acc.failed then acc
  else if v = some char_top then { acc with counter := 0 }
  else if v = some char_middle then { acc with counter := acc.counter + 1 }
  else if v = some char_bottom then
    if acc.counter = 0 then
      let n := acc.destroyers + 1
      { acc with destroyers := n, failed := n > dT }
    else if acc.counter = 1 then
      let n := acc.cruisers + 1
      { acc with cruisers := n, failed := n > cT }
    else if acc.counter = 2 then
      let n := acc.battleships + 1
      { acc with battleships := n, failed := n > bT }
    else acc
  else acc

/-- Floor square root (the largest k with k * k ≤ n), written as a scan so
that it evaluates inside the kernel; it agrees with `int(math.sqrt(n))`
for every board size the solver meets. -/
def intSqrt (n : Nat) : Nat :=
  (List.range (n + 1)).foldl (fun acc k => if k * k ≤ n then k else acc) 0

/-- ShipConstraint.check: scan the scope left to right for horizontal runs,
then scan every column of the CELL_DICT grid top to bottom for vertical
runs (the grid side is `int(math.sqrt(len(scope) + 1))`), returning 2 on
any exceeded count and comparing the final counts against the targets. -/
def shipCheck (s : State) (sT dT cT bT : Nat) (scope : List Pos) : Nat :=
  let w := intSqrt (scope.length + 1)
  let h := scope.foldl (fun acc p => shipHStep sT dT cT bT acc (s.cellData p).value)
    { submarine := 0, destroyers := 0, cruisers := 0, battleships := 0,
      counter := 0, failed := false }
  let vcells := ((List.range w).map fun i =>
    (List.range w).map fun j => ((i : Int), (j : Int))).flatten
  let v := vcells.foldl (fun acc p => shipVStep dT cT bT acc (s.cellData p).value)
    { h with counter := 0 }
  if v.failed then 2
  else if v.destroyers = dT ∧ v.battleships = bT ∧ v.cruisers = cT ∧ v.submarine = sT
  then 0 else 2

/-- `check()` of the three counting constraints.  The WaterConstraint's
check takes a cell argument and is modelled separately by `checkWaterC`;
this function is never applied to it by the embedded solver, mirroring the
`isinstance` guards of the source. -/
def cnstrCheck (s : State) : Cnstr → Nat
  | .row limit sc => rowColCheck s limit sc
  | .col limit sc => rowColCheck s limit sc
  | .ship sT dT cT bT sc => shipCheck s sT dT cT bT sc
  | .water _ _ _ => 0

/-- A neighbor spot passes the must-be-water test: off-board spots pass,
unassigned cells pass, assigned cells pass only when water. -/
def waterOK (w : Nat) (s : State) (x y : Int) : Bool :=
  if check_if_spot_valid w x y then
    match (s.cellData (x, y)).value with
    | some c => c == '.'
    | none => true
  else true

/-- A continuation spot (with the source's `else: return 2`): the spot must
be on the board, and if assigned must carry one of the two continuation
symbols. -/
def contOK (w : Nat) (s : State) (x y : Int) (a b : Char) : Bool :=
  if check_if_spot_valid w x y then
    match (s.cellData (x, y)).value with
    | some c => c == a || c == b
    | none => true
  else false

/-- A middle-segment continuation spot: the test is skipped entirely when
the orientation flag is set, and an off-board spot is not required to
exist. -/
def contOKIfUnflagged (w : Nat) (s : State) (flagged : Bool) (x y : Int)
    (a b : Char) : Bool :=
  if flagged then true
  else if check_if_spot_valid w x y then
    match (s.cellData (x, y)).value with
    | some c => c == a || c == b
    | none => true
  else true

/-- The value at a spot when it is on the board, else none (the Python
initializes tv1/tv2 to the integer 0, which compares unequal to every
symbol just as None does). -/
def nbrVal (w : Nat) (s : State) (x y : Int) : Option Char :=
  if check_if_spot_valid w x y then (s.cellData (x, y)).value else none

/-- `check_water_constraints`: the per-cell adjacency verdict.  Returns
some 2 on a violation, some 1 when the cell is water, and none otherwise
(the Python function falls off the end without a return). -/
def checkWaterC (w h : Nat) (s : State) (p : Pos) : Option Nat :=
  let x := p.1
  let y := p.2
  match (s.cellData p).value with
  | none => none
  | some c =>
    if c = char_top then
      if waterOK w s (x - 1) (y - 1) && waterOK w s x (y - 1) &&
          waterOK w s (x + 1) (y - 1) && waterOK w s (x - 1) y &&
          waterOK w s (x + 1) y && waterOK w s (x - 1) (y + 1) &&
          contOK w s x (y + 1) char_bottom char_middle &&
          waterOK w s (x + 1) (y + 1) then none
      else some 2
    else if c = char_bottom then
      if waterOK w s (x - 1) (y - 1) &&
          contOK w s x (y - 1) char_middle char_top &&
          waterOK w s (x + 1) (y - 1) && waterOK w s (x - 1) y &&
          waterOK w s (x + 1) y && waterOK w s (x - 1) (y + 1) &&
          waterOK w s x (y + 1) && waterOK w s (x + 1) (y + 1) then none
      else some 2
    else if c = char_left then
      if waterOK w s (x - 1) (y - 1) && waterOK w s x (y - 1) &&
          waterOK w s (x + 1) (y - 1) && waterOK w s (x - 1) y &&
          contOK w s (x + 1) y char_middle char_right &&
          waterOK w s (x - 1) (y + 1) && waterOK w s x (y + 1) &&
          waterOK w s (x + 1) (y + 1) then none
      else some 2
    else if c = char_right then
      if waterOK w s (x - 1) (y - 1) && waterOK w s x (y - 1) &&
          waterOK w s (x + 1) (y - 1) &&
          contOK w s (x - 1) y char_middle char_left &&
          waterOK w s (x + 1) y && waterOK w s (x - 1) (y + 1) &&
          waterOK w s x (y + 1) && waterOK w s (x + 1) (y + 1) then none
      else some 2
    else if c = char_middle then
      let tv1 := nbrVal w s x (y - 1)
      let tv2 := nbrVal w s (x - 1) y
      let flag : Option Char :=
        if tv1 = some char_top ∨ tv1 = some char_middle then some 'v'
        else if tv2 = some char_left ∨ tv2 = some char_middle then some 'h'
        else none
      if (x = 0 ∧ y = 0) ∨ (x = (w : Int) - 1 ∧ y = (h : Int) - 1) ∨
          (x = 0 ∧ y = (h : Int) - 1) ∨ (x = (w : Int) - 1 ∧ y = 0) then some 2
      else if flag = some 'v' ∧ (y = 0 ∨ y = (w : Int) - 1) then some 2
      else if flag = some 'h' ∧ (x = 0 ∨ x = (w : Int) - 1) then some 2
      else if waterOK w s (x - 1) (y - 1) &&
          contOKIfUnflagged w s flag.isSome x (y - 1) char_middle char_top &&
          waterOK w s (x + 1) (y - 1) &&
          contOKIfUnflagged w s flag.isSome (x - 1) y char_middle char_left &&
          contOKIfUnflagged w s flag.isSome (x + 1) y char_middle char_right &&
          waterOK w s (x - 1) (y + 1) &&
          contOKIfUnflagged w s flag.isSome x (y + 1) char_middle char_bottom &&
          waterOK w s (x + 1) (y + 1) then none
      else some 2
    else if c = char_submarine then
      if waterOK w s (x - 1) (y - 1) && waterOK w s x (y - 1) &&
          waterOK w s (x + 1) (y - 1) && waterOK w s (x - 1) y &&
          waterOK w s (x + 1) y && waterOK w s (x - 1) (y + 1) &&
          waterOK w s x (y + 1) && waterOK w s (x + 1) (y + 1) then none
      else some 2
    else if c = char_water then some 1
    else none

/-- State.partial_check: the row and column constraints of the assigned
cell must not be violated, and the last constraint of the CSP (the
WaterConstraint of every state built by read_from_file) must not flag the
cell.  A state whose last constraint is not a WaterConstraint would crash
the source (check() takes no cell argument); that case is modelled as
failure. -/
def partial_check (s : State) (p : Pos) : Bool :=
  ((s.cellCnstr p).all fun c => cnstrCheck s c != 2) &&
    (match s.constraints.getLast? with
     | some (.water w h _) => checkWaterC w h s p != some 2
     | _ => false)

/-- State.full_check: every non-water constraint checks to neither 1 nor 2,
and every cell is assigned. -/
def full_check (s : State) : Bool :=
  (s.constraints.all fun c =>
    c.isWater || (cnstrCheck s c != 1 && cnstrCheck s c != 2)) &&
    (s.cells.all fun p => (s.cellData p).value.isSome)

/-- One step of the MRV scan in select_unassigned_var: the accumulator is
the (ret, minv) pair, with none standing for the initial (0, math.inf). -/
def selStep (s : State) (acc : Option Pos × Option Nat) (c : Pos) :
    Option Pos × Option Nat :=
  match acc.2 with
  | none => (some c, some (curLen s c))
  | some m => if curLen s c < m then (some c, some (curLen s c)) else acc

/-- select_unassigned_var: collect the unassigned cells in enumeration
order, and return the first one of minimal `len(c._curdom)`; False (none)
when every cell is assigned. -/
def select_unassigned_var (s : State) : Option Pos :=
  if (s.cells.filter fun p => (s.cellData p).value.isNone).length ≠ 0 then
    ((s.cells.filter fun p => (s.cellData p).value.isNone).foldl
      (selStep s) (none, none)).1
  else none

/-- The full domain of an unknown cell, in the source's order. -/
def fullDom : List Char := ['.', 'M', '^', 'v', '<', '>', 'S']

/-- The default data for coordinates outside CELL_DICT. -/
def emptyCell : CellData := { dom := [], curdom := [], value := none, is_ship := false }

/-- The cell read_from_file creates for one input character. -/
def clueCell (c : Char) : CellData :=
  if c = '0' then { dom := fullDom, curdom := fullDom, value := none, is_ship := false }
  else if c = '.' then
    { dom := ['.'], curdom := ['.'], value := some '.', is_ship := false }
  else { dom := [c], curdom := [c], value := some c, is_ship := true }

/-- The scope of row y: the row's cells in x order. -/
def rowScope (width y : Nat) : List Pos :=
  (List.range width).map fun x => ((x : Int), (y : Int))

/-- The scope of column x: the column's cells in y order. -/
def colScope (width x : Nat) : List Pos :=
  (List.range width).map fun y => ((x : Int), (y : Int))

/-- read_from_file without the file IO: build the solver state from the row
limits, the column limits, the fleet targets and the clue grid.  Cells are
enumerated row-major; the constraint list is the row constraints, the
column constraints, the ShipConstraint (scope reset to all cells) and the
WaterConstraint last; each cell's back-references are its column constraint
followed by its row constraint. -/
def mkState (rowLimits colLimits : List Nat) (sT dT cT bT : Nat)
    (grid : List (List Char)) : State :=
  let width := grid.length
  let cells := ((List.range width).map fun y => rowScope width y).flatten
  { width := width
    cells := cells
    cellData := fun p =>
      if p.1 < 0 ∨ p.2 < 0 then emptyCell
      else
        match (grid.get? p.2.toNat).bind fun r => r.get? p.1.toNat with
        | some c => clueCell c
        | none => emptyCell
    constraints :=
      ((List.range width).map fun y =>
          Cnstr.row (rowLimits.getD y 0) (rowScope width y)) ++
        ((List.range width).map fun x =>
          Cnstr.col (colLimits.getD x 0) (colScope width x)) ++
        [Cnstr.ship sT dT cT bT cells, Cnstr.water width width cells]
    cellCnstr := fun p =>
      [Cnstr.col (colLimits.getD p.1.toNat 0) (colScope width p.1.toNat),
        Cnstr.row (rowLimits.getD p.2.toNat 0) (rowScope width p.2.toNat)] }

/-- A concrete board for the MRV witness: a water clue then three unknown
cells. -/
def selState : State := mkState [1, 1] [1, 1] 1 0 0 0 [['.', '0'], ['0', '0']]

/-- The three statements repeated throughout preprocessing: setValue
water, resetDomain to the singleton water, collapse the current domain. -/
def forceWater (s : State) (p : Pos) : State :=
  let cd1 := cellSetValue (s.cellData p) (some '.')
  s.setCell p { cd1 with dom := ['.'], curdom := ['.'] }

/-- One cell of the scope loop inside the row/column deduction. -/
def forceScopeStep (u : State) (ce : Pos) : State :=
  if u.value ce = none then forceWater u ce else u

/-- The row/column deduction of preprocessing for one constraint: when a
row or column constraint is already exactly satisfied, force its remaining
unassigned cells to water. -/
def preRCStep (s : State) (c : Cnstr) : State :=
  if c.isRowCol then
    if cnstrCheck s c = 0 then c.scope.foldl forceScopeStep s else s
  else s

/-- The neighbor offsets forced to water for each pre-placed clue symbol,
in the source's order of the `check_if_spot_valid` blocks. -/
def preOffsets (c : Char) : List (Int × Int) :=
  if c = char_top then
    [(-1, -1), (0, -1), (1, -1), (-1, 0), (1, 0), (-1, 1), (1, 1), (-1, 2), (1, 2)]
  else if c = char_bottom then
    [(-1, -1), (1, -1), (-1, 0), (1, 0), (-1, 1), (0, 1), (1, 1), (-1, -2), (1, -2)]
  else if c = char_left then
    [(-1, -1), (0, -1), (1, -1), (-1, 0), (-1, 1), (0, 1), (1, 1), (2, -1), (2, 1)]
  else if c = char_right then
    [(-1, -1), (0, -1), (1, -1), (1, 0), (-1, 1), (0, 1), (1, 1), (-2, -1), (-2, 1)]
  else if c = char_middle then [(-1, -1), (1, -1), (-1, 1), (1, 1)]
  else if c = char_submarine then
    [(-1, -1), (0, -1), (1, -1), (-1, 0), (1, 0), (-1, 1), (0, 1), (1, 1)]
  else []

/-- The clue-neighbor deduction of preprocessing for one cell: every valid
neighbor spot in the clue's offset list is forced to water. -/
def preClueStep (s : State) (p : Pos) : State :=
  match (s.cellData p).value with
  | none => s
  | some c =>
    (preOffsets c).foldl (fun u off =>
      if check_if_spot_valid u.width (p.1 + off.1) (p.2 + off.2) then
        forceWater u (p.1 + off.1, p.2 + off.2)
      else u) s

/-- preprocessing: one pass of row/column deductions, then one pass of
clue-neighbor water forcing, neither iterated to a fixed point (the
intermediate state after the first loop is written out twice). -/
def preprocessing (s : State) : State :=
  (s.constraints.foldl preRCStep s).cells.foldl preClueStep
    (s.constraints.foldl preRCStep s)

/-- How a preprocessing step may change the state: the structure is
untouched, is_ship flags are untouched, values change only to water, and
a still-unassigned cell was unassigned before with its domain either
untouched or collapsed to the singleton water. -/
def Evolves (s t : State) : Prop :=
  t.width = s.width ∧ t.cells = s.cells ∧ t.constraints = s.constraints ∧
    t.cellCnstr = s.cellCnstr ∧
    (∀ q, (t.cellData q).is_ship = (s.cellData q).is_ship) ∧
    (∀ q, t.value q = s.value q ∨ t.value q = some '.') ∧
    ∀ q, t.value q = none →
      s.value q = none ∧
        ((t.cellData q).dom = (s.cellData q).dom ∨ (t.cellData q).dom = ['.'])

/-- A concrete board with two adjacent ship clues for the C7
counterexample: a submarine clue at (0, 0) next to a top clue at (1, 0). -/
def adjClueState : State := mkState [3, 3] [3, 3] 0 0 0 0 [['S', '^'], ['0', '0']]

/-- A concrete clue-free board for the C7 witness. -/
def noClueState : State := mkState [0, 2] [1, 1] 1 1 0 0 [['0', '0'], ['0', '0']]

/-- The caller-owned restore map of one search frame: an insertion-ordered
association list from cells to current-domain snapshots, modelling the
Python dict. -/
abbrev Restore := List (Pos × List Char)

/-- Dict lookup. -/
def rGet : Restore → Pos → Option (List Char)
  | [], _ => none
  | e :: r, p => if e.1 = p then some e.2 else rGet r p

/-- Dict membership (`temp not in restore`). -/
def rHas (r : Restore) (p : Pos) : Bool := (rGet r p).isSome

/-- Dict assignment: replace an existing binding in place, else append
(insertion order preserved, as in a Python dict). -/
def rSet : Restore → Pos → List Char → Restore
  | [], p, d => [(p, d)]
  | e :: r, p, d => if e.1 = p then (p, d) :: r else e :: rSet r p d

/-- recover_var: write every recorded snapshot back into the cells'
current domains, in insertion order. -/
def recover_var (r : Restore) (s : State) : State :=
  r.foldl (fun u e => u.setCell e.1 { u.cellData e.1 with curdom := e.2 }) s

/-- The prune loop `for dom in temp.curDomain(): if not keep: prune`:
iterate over the snapshot returned by curDomain while pruning the live
current domain. -/
def pruneKeep (keep : Char → Bool) (cd : CellData) : CellData :=
  (cellCurDomain cd).foldl (fun c v => if keep v then c else cellPruneValue c v) cd

/-- State threaded through forward_checking: board, restore map, and the
early-return flag (True once some pruned domain came up empty). -/
structure FCS where
  s : State
  restore : Restore
  failed : Bool

def keepWater : Char → Bool := fun d => d == '.'

def keepMT : Char → Bool := fun d => d == char_middle || d == char_top

def keepMB : Char → Bool := fun d => d == char_middle || d == char_bottom

def keepML : Char → Bool := fun d => d == char_middle || d == char_left

def keepMR : Char → Bool := fun d => d == char_middle || d == char_right

/-- One touched neighbor in forward_checking: when the spot is valid and
the cell unassigned, snapshot its current domain into the restore map
unless already present, prune every value the placed symbol disallows, and
fail if the domain came up empty. -/
def fcTouch (w : Nat) (q : Pos) (keep : Char → Bool) (fc : FCS) : FCS :=
  if fc.failed then fc
  else if check_if_spot_valid w q.1 q.2 then
    if (fc.s.cellData q).value = none then
      { s := fc.s.setCell q (pruneKeep keep (fc.s.cellData q))
        restore :=
          if rHas fc.restore q then fc.restore
          else rSet fc.restore q (fc.s.cellData q).curdom
        failed := (pruneKeep keep (fc.s.cellData q)).curdom.isEmpty }
    else fc
  else fc

/-- One scope cell in the satisfied-count loop of forward_checking: the
snapshot here is stored unconditionally (`restore[ce] = copy(...)`), then
everything but water is pruned. -/
def fcScopeStep (fc : FCS) (ce : Pos) : FCS :=
  if fc.failed then fc
  else
    if (fc.s.cellData ce).value = none then
      { s := fc.s.setCell ce (pruneKeep keepWater (fc.s.cellData ce))
        restore := rSet fc.restore ce (fc.s.cellData ce).curdom
        failed := (pruneKeep keepWater (fc.s.cellData ce)).curdom.isEmpty }
    else fc

/-- One constraint of the assigned cell in forward_checking: when exactly
satisfied, collapse its unassigned scope cells to water. -/
def fcRCStep (fc : FCS) (c : Cnstr) : FCS :=
  if fc.failed then fc
  else if cnstrCheck fc.s c = 0 then c.scope.foldl fcScopeStep fc
  else fc

/-- The orientation flag computed at the start of the middle branch of
forward_checking, from the already assigned neighbor above and to the
left. -/
def middleFlag (w : Nat) (s : State) (p : Pos) : Option Char :=
  let tv1 := nbrVal w s p.1 (p.2 - 1)
  let tv2 := nbrVal w s (p.1 - 1) p.2
  if tv1 = some char_top ∨ tv1 = some char_middle then some 'v'
  else if tv2 = some char_left ∨ tv2 = some char_middle then some 'h'
  else none

/-- The eight neighbor offsets and keep-predicates of each symbol's
forward-checking block, in the source's position order.  Only the middle
symbol consults the orientation flag: an inferred orientation turns the
in-line continuation spots of the other orientation into must-water
spots. -/
def fcOffsets (c : Char) (flag : Option Char) :
    List ((Int × Int) × (Char → Bool)) :=
  if c = char_top then
    [((-1, -1), keepWater), ((0, -1), keepWater), ((1, -1), keepWater),
      ((-1, 0), keepWater), ((1, 0), keepWater), ((-1, 1), keepWater),
      ((0, 1), keepMB), ((1, 1), keepWater)]
  else if c = char_bottom then
    [((-1, -1), keepWater), ((0, -1), keepMT), ((1, -1), keepWater),
      ((-1, 0), keepWater), ((1, 0), keepWater), ((-1, 1), keepWater),
      ((0, 1), keepWater), ((1, 1), keepWater)]
  else if c = char_left then
    [((-1, -1), keepWater), ((0, -1), keepWater), ((1, -1), keepWater),
      ((-1, 0), keepWater), ((1, 0), keepMR), ((-1, 1), keepWater),
      ((0, 1), keepWater), ((1, 1), keepWater)]
  else if c = char_right then
    [((-1, -1), keepWater), ((0, -1), keepWater), ((1, -1), keepWater),
      ((-1, 0), keepML), ((1, 0), keepWater), ((-1, 1), keepWater),
      ((0, 1), keepWater), ((1, 1), keepWater)]
  else if c = char_middle then
    [((-1, -1), keepWater),
      ((0, -1), if flag = some 'h' then keepWater else keepMT),
      ((1, -1), keepWater),
      ((-1, 0), if flag = some 'v' then keepWater else keepML),
      ((1, 0), if flag = some 'v' then keepWater else keepMR),
      ((-1, 1), keepWater),
      ((0, 1), if flag = some 'h' then keepWater else keepMB),
      ((1, 1), keepWater)]
  else if c = char_submarine then
    [((-1, -1), keepWater), ((0, -1), keepWater), ((1, -1), keepWater),
      ((-1, 0), keepWater), ((1, 0), keepWater), ((-1, 1), keepWater),
      ((0, 1), keepWater), ((1, 1), keepWater)]
  else []

/-- forward_checking: first the satisfied-count collapse for the assigned
cell's row and column constraints, then the symbol's neighbor pruning;
every early `return False` of the source is the raised failed flag, and
the boolean result is `failed = false`.  No exception is ever raised. -/
def fcPhase1 (p : Pos) (s : State) (r0 : Restore) : FCS :=
  (s.cellCnstr p).foldl fcRCStep { s := s, restore := r0, failed := false }

def forward_checking (p : Pos) (s : State) (r0 : Restore) : FCS :=
  match ((fcPhase1 p s r0).s.cellData p).value with
  | none => fcPhase1 p s r0
  | some c =>
    (fcOffsets c (middleFlag s.width (fcPhase1 p s r0).s p)).foldl
      (fun fc e => fcTouch s.width (p.1 + e.1.1, p.2 + e.1.2) e.2 fc)
      (fcPhase1 p s r0)

/-- Audit invariant of forward checking relative to the entry state: the
raised flag means some recorded cell's current domain is empty, the
unraised flag means no recorded cell's is, and every cell whose current
domain differs from entry is recorded in the restore map. -/
def FCInv (s0 : State) (fc : FCS) : Prop :=
  (fc.failed = true →
    ∃ q, rHas fc.restore q = true ∧ (fc.s.cellData q).curdom = []) ∧
    (fc.failed = false →
      ∀ q, rHas fc.restore q = true → (fc.s.cellData q).curdom ≠ []) ∧
    ∀ q, (fc.s.cellData q).curdom ≠ (s0.cellData q).curdom →
      rHas fc.restore q = true

/-- A concrete board for the C4 witness: a submarine clue at (0, 0) whose
row target is already met, so forward checking prunes its row mate and its
neighbors. -/
def fcState : State := mkState [1, 9] [9, 9] 1 0 0 0 [['S', '0'], ['0', '0']]

/-- Round-trip invariant of forward checking relative to the entry state:
every recorded snapshot equals the cell's entry current domain, every
unrecorded cell still holds its entry current domain, the restore keys are
distinct, and no assigned value has changed. -/
def RInv (s0 : State) (fc : FCS) : Prop :=
  (∀ q d, rGet fc.restore q = some d → d = (s0.cellData q).curdom) ∧
    (∀ q, rGet fc.restore q = none →
      (fc.s.cellData q).curdom = (s0.cellData q).curdom) ∧
    (fc.restore.map Prod.fst).Nodup ∧
    ∀ q, (fc.s.cellData q).value = (s0.cellData q).value

/-- A frame result: the final board state together with the returned
assignment list (the empty list stands for failure, as in the source). -/
abbrev Sol := List (Pos × Option Char)

/-- The solution list built when full_check succeeds: one coordinate-value
pair per cell, in enumeration order. -/
def solutionList (s : State) : Sol :=
  s.cells.map fun c => (c, (s.cellData c).value)

/-- var.setValue on the board. -/
def State.setValue (s : State) (p : Pos) (v : Option Char) : State :=
  s.setCell p (cellSetValue (s.cellData p) v)

/-- The `var.is_ship = ...` assignments of the search driver (None at
frame exit is modelled as false, see the header note). -/
def State.setIsShip (s : State) (p : Pos) (b : Bool) : State :=
  s.setCell p { s.cellData p with is_ship := b }

/-- var.pruneValue on the board (the value is present in every reachable
call, so the erase is exact). -/
def State.pruneVal (s : State) (p : Pos) (v : Char) : State :=
  s.setCell p (cellPruneValue (s.cellData p) v)

/-- var.reset(): restore the current domain to the full static domain and
unassign. -/
def State.resetVar (s : State) (p : Pos) : State :=
  s.setCell p { s.cellData p with curdom := (s.cellData p).dom, value := none }

/-- One iteration of the try-value loop of a backtrack frame: assign the
value, update is_ship, run partial_check, then forward checking, then the
recursive search; the left summand is a solution returned up the stack,
the right summand the state in which the loop moves on to the next value
(after recover_var where the source calls it, and pruneValue always). -/
def tryStep (bt : State → State × Sol) (s : State) (p : Pos) (v : Char) :
    (State × Sol) ⊕ State :=
  if partial_check ((s.setValue p (some v)).setIsShip p (v != '.')) p then
    if (forward_checking p ((s.setValue p (some v)).setIsShip p (v != '.')) []).failed
        = false then
      if (bt (forward_checking p
          ((s.setValue p (some v)).setIsShip p (v != '.')) []).s).2 = [] then
        Sum.inr ((recover_var
          (forward_checking p ((s.setValue p (some v)).setIsShip p (v != '.')) []).restore
          (bt (forward_checking p
            ((s.setValue p (some v)).setIsShip p (v != '.')) []).s).1).pruneVal p v)
      else Sum.inl (bt (forward_checking p
        ((s.setValue p (some v)).setIsShip p (v != '.')) []).s)
    else
      Sum.inr ((recover_var
        (forward_checking p ((s.setValue p (some v)).setIsShip p (v != '.')) []).restore
        (forward_checking p
          ((s.setValue p (some v)).setIsShip p (v != '.')) []).s).pruneVal p v)
  else Sum.inr (((s.setValue p (some v)).setIsShip p (v != '.')).pruneVal p v)

/-- The try-value loop over the snapshot of the selected cell's current
domain, parametrized by the recursive search call. -/
def tryValues (bt : State → State × Sol) : State → Pos → List Char → State × Sol
  | s, _, [] => (s, [])
  | s, p, v :: vs =>
    match tryStep bt s p v with
    | Sum.inl r => r
    | Sum.inr s' => tryValues bt s' p vs

/-- The body of one backtrack frame once a cell has been selected: run the
try-value loop over the snapshot of the cell's current domain; a returned
solution passes straight up; on exhaustion, reset the cell (full static
domain, unassigned, is_ship cleared) and fail. -/
def btFrame (bt : State → State × Sol) (s : State) (p : Pos) : State × Sol :=
  if (tryValues bt s p (cellCurDomain (s.cellData p))).2 = [] then
    (((tryValues bt s p (cellCurDomain (s.cellData p))).1.resetVar p).setIsShip
      p false, [])
  else tryValues bt s p (cellCurDomain (s.cellData p))

/-- backtrack, with explicit fuel in place of the unbounded Python
recursion (exhausted fuel surfaces as failure): return the solution list
when full_check holds; otherwise select a cell by MRV and run the frame
body; when no cell is unassigned, return the empty list. -/
def backtrackAux : Nat → State → State × Sol
  | 0, s => (s, [])
  | fuel + 1, s =>
    if full_check s then (s, solutionList s)
    else
      match select_unassigned_var s with
      | some p => btFrame (backtrackAux fuel) s p
      | none => (s, [])

/-- A 1-cell solvable puzzle: all targets zero, the single cell becomes
water. -/
def solvableState : State := mkState [0] [0] 0 0 0 0 [['0']]

/-- A 1-cell unsatisfiable puzzle: one segment demanded in the row and
column but the fleet must be empty. -/
def unsatState : State := mkState [1] [1] 0 0 0 0 [['0']]

/-- A 1-cell board whose cell's current domain has been pruned to the
single submarine symbol by an (ancestor) propagation, while its static
domain is full; the row and column targets forbid the submarine. -/
def prunedState : State :=
  (mkState [0] [0] 0 0 0 0 [['0']]).setCell ((0 : Int), (0 : Int))
    { dom := fullDom, curdom := ['S'], value := none, is_ship := false }

/-- Claim C8 counterexample: assigning water to a cell whose static domain
is the singleton S does not fail with a DomainError.  The call returns
normally (`.ok`), the cell is unchanged, and the only effect is the printed
error message; yet water is indeed outside the static domain. -/
theorem setValue_out_of_domain_no_failure :
    '.' ∉ subClueCell.dom ∧
      cellSetValueE subClueCell (some '.') = .ok (subClueCell, true) := by
  constructor
  · decide
  · rfl

/-- Claim C8 amended: calling `setValue(v)` with `v` outside the static
domain does not raise; it returns normally with the error message printed
and the cell left unchanged. -/
theorem setValue_out_of_domain_prints (cd : CellData) (v : Char)
    (h : v ∉ cd.dom) : cellSetValueE cd (some v) = .ok (cd, true) := by
  simp [cellSetValueE, h]

/-- Claim C8 amended, witness: the amended theorem applied to the concrete
submarine-clue cell and the water symbol. -/
theorem setValue_out_of_domain_prints_w :
    cellSetValueE subClueCell (some '.') = .ok (subClueCell, true) :=
  setValue_out_of_domain_prints subClueCell '.' (by decide)

/-- Claim C9 counterexample: pruning water from a cell whose current domain
is the singleton S does not fail with a PruneError: the exception from
`list.remove` is caught, a message is printed, and the call returns
normally with the current domain unchanged. -/
theorem pruneValue_miss_no_failure :
    '.' ∉ subClueCell.curdom ∧
      cellPruneValueE subClueCell '.' = .ok (subClueCell, true) := by
  constructor
  · decide
  · rfl

/-- Claim C9 amended: a prune miss prints an error and leaves the current
domain unchanged, returning normally; pruning a present value removes
exactly its first occurrence from the current domain. -/
theorem pruneValue_behavior (cd : CellData) (v : Char) :
    (v ∉ cd.curdom → cellPruneValueE cd v = .ok (cd, true)) ∧
      (v ∈ cd.curdom →
        cellPruneValueE cd v = .ok ({ cd with curdom := cd.curdom.erase v }, false)) := by
  constructor
  · intro h
    simp [cellPruneValueE, h]
  · intro h
    simp [cellPruneValueE, h]

/-- Claim C9 amended, witness: both branches of the amended theorem at
concrete cells: a miss on the submarine clue, and a hit removing S. -/
theorem pruneValue_behavior_w :
    cellPruneValueE subClueCell '.' = .ok (subClueCell, true) ∧
      cellPruneValueE subClueCell 'S' =
        .ok ({ subClueCell with curdom := [] }, false) := by
  constructor
  · exact (pruneValue_behavior subClueCell '.').1 (by decide)
  · have h := (pruneValue_behavior subClueCell 'S').2 (by decide)
    simpa using h

/-- Claim C10: `setValue` with a value outside the static domain leaves the
whole cell unchanged: assigned value, static domain and current domain. -/
theorem setValue_out_of_domain_unchanged (cd : CellData) (v : Char)
    (h : v ∉ cd.dom) : cellSetValue cd (some v) = cd := by
  simp [cellSetValue, cellSetValueE, h]

/-- Claim C10 witness: the theorem applied to the concrete submarine-clue
cell and the middle symbol, which is outside its static domain. -/
theorem setValue_out_of_domain_unchanged_w :
    cellSetValue subClueCell (some 'M') = subClueCell :=
  setValue_out_of_domain_unchanged subClueCell 'M' (by decide)

/-- The MRV fold keeps the first strict minimum: starting from a candidate
`r`, the fold over `l` returns a cell `q` that is either `r` itself (no
strictly smaller cell in `l`) or a member of `l` strictly smaller than `r`
and than everything before it, and no larger than everything after it. -/
theorem selFold_spec (s : State) (l : List Pos) :
    ∀ r : Pos,
      ∃ q, l.foldl (selStep s) (some r, some (curLen s r)) =
          (some q, some (curLen s q)) ∧
        ((q = r ∧ ∀ p ∈ l, curLen s r ≤ curLen s p) ∨
          ∃ l₁ l₂, l = l₁ ++ q :: l₂ ∧ curLen s q < curLen s r ∧
            (∀ p ∈ l₁, curLen s q < curLen s p) ∧
            ∀ p ∈ l₂, curLen s q ≤ curLen s p) := by
  induction l with
  | nil =>
    intro r
    exact ⟨r, rfl, Or.inl ⟨rfl, by simp⟩⟩
  | cons c cs ih =>
    intro r
    by_cases hlt : curLen s c < curLen s r
    · obtain ⟨q, hq, hcase⟩ := ih c
      refine ⟨q, ?_, ?_⟩
      · simpa [selStep, hlt] using hq
      · rcases hcase with ⟨hqc, hmin⟩ | ⟨l₁, l₂, hdec, hql, hbefore, hafter⟩
        · subst hqc
          exact Or.inr ⟨[], cs, by simp, hlt, by simp, hmin⟩
        · refine Or.inr ⟨c :: l₁, l₂, by simp [hdec], lt_trans hql hlt, ?_, hafter⟩
          intro p hp
          rcases List.mem_cons.mp hp with h | h
          · exact h ▸ hql
          · exact hbefore p h
    · obtain ⟨q, hq, hcase⟩ := ih r
      refine ⟨q, ?_, ?_⟩
      · simpa [selStep, hlt] using hq
      · rcases hcase with ⟨hqr, hmin⟩ | ⟨l₁, l₂, hdec, hql, hbefore, hafter⟩
        · subst hqr
          refine Or.inl ⟨rfl, ?_⟩
          intro p hp
          rcases List.mem_cons.mp hp with h | h
          · exact h ▸ le_of_not_lt hlt
          · exact hmin p h
        · refine Or.inr ⟨c :: l₁, l₂, by simp [hdec], hql, ?_, hafter⟩
          intro p hp
          rcases List.mem_cons.mp hp with h | h
          · exact h ▸ lt_of_lt_of_le hql (le_of_not_lt hlt)
          · exact hbefore p h

/-- Claim C3: select_unassigned_var returns none exactly when every cell
is assigned; and when it returns a cell `q`, `q` is unassigned, occurs in
the board's enumeration of unassigned cells with every earlier unassigned
cell of strictly larger current-domain size (first-found tie-break), and
`q`'s current-domain size is minimal among all unassigned cells. -/
theorem select_unassigned_var_mrv (s : State) :
    (select_unassigned_var s = none ↔
      ∀ p ∈ s.cells, (s.cellData p).value.isSome) ∧
      ∀ q, select_unassigned_var s = some q →
        ∃ l₁ l₂,
          (s.cells.filter fun p => (s.cellData p).value.isNone) = l₁ ++ q :: l₂ ∧
            (∀ p ∈ l₁, curLen s q < curLen s p) ∧
            (∀ p ∈ l₂, curLen s q ≤ curLen s p) ∧
            ∀ p ∈ s.cells, (s.cellData p).value.isNone → curLen s q ≤ curLen s p := by
  rcases htemp : s.cells.filter fun p => (s.cellData p).value.isNone with _ | ⟨c, cs⟩
  · have hall : ∀ p ∈ s.cells, (s.cellData p).value.isSome := by
      intro p hp
      by_contra hps
      have hmem : p ∈ s.cells.filter fun p => (s.cellData p).value.isNone :=
        List.mem_filter.mpr ⟨hp, by
          cases hval : (s.cellData p).value <;> simp_all⟩
      rw [htemp] at hmem
      cases hmem
    have hsel : select_unassigned_var s = none := by
      unfold select_unassigned_var
      rw [htemp]
      simp
    refine ⟨⟨fun _ => hall, fun _ => hsel⟩, ?_⟩
    intro q hq
    rw [hsel] at hq
    cases hq
  · obtain ⟨q0, hq0, hcase⟩ := selFold_spec s cs c
    have hsel : select_unassigned_var s = some q0 := by
      unfold select_unassigned_var
      rw [htemp]
      simp only [List.length_cons, ne_eq, Nat.succ_ne_zero, not_false_iff, if_true,
        List.foldl_cons]
      have hstep : selStep s (none, none) c = (some c, some (curLen s c)) := rfl
      rw [hstep, hq0]
    have hcmem : c ∈ s.cells.filter fun p => (s.cellData p).value.isNone := by
      rw [htemp]
      exact List.mem_cons_self c cs
    constructor
    · refine iff_of_false (by rw [hsel]; simp) ?_
      intro hall
      have := hall c (List.mem_filter.mp hcmem).1
      have hnone := (List.mem_filter.mp hcmem).2
      cases hval : (s.cellData c).value <;> simp_all
    · intro q hq
      rw [hsel] at hq
      injection hq with hq
      subst hq
      rcases hcase with ⟨hqc, hmin⟩ | ⟨l₁, l₂, hdec, hql, hbefore, hafter⟩
      · subst hqc
        refine ⟨[], cs, by simp [htemp], by simp, hmin, ?_⟩
        intro p hp hpn
        have hpm : p ∈ s.cells.filter fun r => (s.cellData r).value.isNone :=
          List.mem_filter.mpr ⟨hp, hpn⟩
        rw [htemp] at hpm
        rcases List.mem_cons.mp hpm with h | h
        · exact h ▸ le_refl _
        · exact hmin p h
      · refine ⟨c :: l₁, l₂, by simp [htemp, hdec], ?_, hafter, ?_⟩
        · intro p hp
          rcases List.mem_cons.mp hp with h | h
          · exact h ▸ hql
          · exact hbefore p h
        · intro p hp hpn
          have hpm : p ∈ s.cells.filter fun r => (s.cellData r).value.isNone :=
            List.mem_filter.mpr ⟨hp, hpn⟩
          rw [htemp, hdec] at hpm
          rcases List.mem_cons.mp hpm with h | h
          · exact h ▸ le_of_lt hql
          · rcases List.mem_append.mp h with h | h
            · exact le_of_lt (hbefore p h)
            · rcases List.mem_cons.mp h with h | h
              · exact h ▸ le_refl _
              · exact hafter p h

/-- Claim C3 witness: on the concrete board, the theorem yields the
decomposition for the returned cell (1, 0), the first unassigned cell. -/
theorem select_unassigned_var_mrv_w :
    ∃ l₁ l₂,
      (selState.cells.filter fun p => (selState.cellData p).value.isNone) =
          l₁ ++ ((1 : Int), (0 : Int)) :: l₂ ∧
        (∀ p ∈ l₁, curLen selState ((1 : Int), (0 : Int)) < curLen selState p) ∧
        (∀ p ∈ l₂, curLen selState ((1 : Int), (0 : Int)) ≤ curLen selState p) ∧
        ∀ p ∈ selState.cells, (selState.cellData p).value.isNone →
          curLen selState ((1 : Int), (0 : Int)) ≤ curLen selState p :=
  (select_unassigned_var_mrv selState).2 ((1 : Int), (0 : Int)) (by decide)

theorem Evolves.refl (s : State) : Evolves s s := by
  refine ⟨rfl, rfl, rfl, rfl, fun _ => rfl, fun q => Or.inl rfl, ?_⟩
  intro q h
  exact ⟨h, Or.inl rfl⟩

theorem Evolves.trans {a b c : State} (h₁ : Evolves a b) (h₂ : Evolves b c) :
    Evolves a c := by
  obtain ⟨w₁, l₁, k₁, n₁, i₁, v₁, u₁⟩ := h₁
  obtain ⟨w₂, l₂, k₂, n₂, i₂, v₂, u₂⟩ := h₂
  refine ⟨w₂.trans w₁, l₂.trans l₁, k₂.trans k₁, n₂.trans n₁,
    fun q => (i₂ q).trans (i₁ q), ?_, ?_⟩
  · intro q
    rcases v₂ q with hv | hv
    · rcases v₁ q with hv' | hv'
      · exact Or.inl (hv.trans hv')
      · exact Or.inr (hv.trans hv')
    · exact Or.inr hv
  · intro q h
    obtain ⟨hb, hdm⟩ := u₂ q h
    obtain ⟨ha, hdm'⟩ := u₁ q hb
    refine ⟨ha, ?_⟩
    rcases hdm with h₃ | h₃
    · rcases hdm' with h₄ | h₄
      · exact Or.inl (h₃.trans h₄)
      · exact Or.inr (h₃.trans h₄)
    · exact Or.inr h₃

/-- Fold preservation of a reflexive transitive binary relation. -/
theorem foldl_rel {α β : Type} (R : β → β → Prop) (f : β → α → β)
    (hstep : ∀ b a, R b (f b a)) (hrefl : ∀ b, R b b)
    (htrans : ∀ a b c, R a b → R b c → R a c) :
    ∀ (l : List α) (b : β), R b (l.foldl f b) := by
  intro l
  induction l with
  | nil => intro b; exact hrefl b
  | cons a l ih =>
    intro b
    exact htrans _ _ _ (hstep b a) (ih (f b a))

theorem cellSetValue_some (cd : CellData) (x : Char) :
    cellSetValue cd (some x) =
      if x ∈ cd.dom then { cd with value := some x } else cd := by
  by_cases h : x ∈ cd.dom <;> simp [cellSetValue, cellSetValueE, h]

theorem setCell_cellData (s : State) (p : Pos) (cd : CellData) (q : Pos) :
    ((s.setCell p cd).cellData q) = if q = p then cd else s.cellData q := rfl

theorem forceWater_evolves (s : State) (p : Pos) : Evolves s (forceWater s p) := by
  unfold forceWater
  rw [cellSetValue_some]
  by_cases h : '.' ∈ (s.cellData p).dom
  · rw [if_pos h]
    refine ⟨rfl, rfl, rfl, rfl, ?_, ?_, ?_⟩
    · intro q
      rw [setCell_cellData]
      by_cases hq : q = p <;> simp [hq]
    · intro q
      by_cases hq : q = p
      · exact Or.inr (by simp [State.value, setCell_cellData, hq])
      · exact Or.inl (by simp [State.value, setCell_cellData, hq])
    · intro q hq
      by_cases hqp : q = p
      · exfalso
        rw [State.value, setCell_cellData, if_pos hqp] at hq
        cases hq
      · rw [State.value, setCell_cellData, if_neg hqp] at hq
        exact ⟨hq, Or.inl (by simp [setCell_cellData, hqp])⟩
  · rw [if_neg h]
    refine ⟨rfl, rfl, rfl, rfl, ?_, ?_, ?_⟩
    · intro q
      rw [setCell_cellData]
      by_cases hq : q = p <;> simp [hq]
    · intro q
      by_cases hq : q = p
      · exact Or.inl (by simp [State.value, setCell_cellData, hq])
      · exact Or.inl (by simp [State.value, setCell_cellData, hq])
    · intro q hq
      by_cases hqp : q = p
      · subst hqp
        rw [State.value, setCell_cellData, if_pos rfl] at hq
        refine ⟨?_, Or.inr (by simp [setCell_cellData])⟩
        simpa [State.value] using hq
      · rw [State.value, setCell_cellData, if_neg hqp] at hq
        exact ⟨hq, Or.inl (by simp [setCell_cellData, hqp])⟩

theorem forceScopeStep_evolves (u : State) (ce : Pos) :
    Evolves u (forceScopeStep u ce) := by
  unfold forceScopeStep
  by_cases h : u.value ce = none
  · rw [if_pos h]
    exact forceWater_evolves u ce
  · rw [if_neg h]
    exact Evolves.refl u

theorem preRCStep_evolves (s : State) (c : Cnstr) : Evolves s (preRCStep s c) := by
  unfold preRCStep
  by_cases h₁ : c.isRowCol
  · rw [if_pos h₁]
    by_cases h₂ : cnstrCheck s c = 0
    · rw [if_pos h₂]
      exact foldl_rel Evolves forceScopeStep forceScopeStep_evolves Evolves.refl
        (fun _ _ _ => Evolves.trans) c.scope s
    · rw [if_neg h₂]
      exact Evolves.refl s
  · rw [if_neg h₁]
    exact Evolves.refl s

theorem preClueStep_evolves (s : State) (p : Pos) : Evolves s (preClueStep s p) := by
  unfold preClueStep
  rcases (s.cellData p).value with _ | c
  · exact Evolves.refl s
  · refine foldl_rel Evolves _ ?_ Evolves.refl (fun _ _ _ => Evolves.trans) _ s
    intro u off
    by_cases h : check_if_spot_valid u.width (p.1 + off.1) (p.2 + off.2)
    · rw [if_pos h]
      exact forceWater_evolves u _
    · rw [if_neg h]
      exact Evolves.refl u

theorem preprocessing_evolves (s : State) : Evolves s (preprocessing s) := by
  unfold preprocessing
  refine Evolves.trans
    (foldl_rel Evolves preRCStep preRCStep_evolves Evolves.refl
      (fun _ _ _ => Evolves.trans) s.constraints s) ?_
  exact foldl_rel Evolves preClueStep preClueStep_evolves Evolves.refl
    (fun _ _ _ => Evolves.trans) _ _

/-- Claim C6: preprocessing only ever assigns water: after the pass, every
cell's value is either its original value or the water symbol, never a
newly placed ship symbol. -/
theorem preprocessing_only_water (s : State) (q : Pos) :
    ((preprocessing s).cellData q).value = (s.cellData q).value ∨
      ((preprocessing s).cellData q).value = some '.' := by
  rcases (preprocessing_evolves s).2.2.2.2.2.1 q with h | h
  · exact Or.inl h
  · exact Or.inr h

theorem countShips_congr (s t : State)
    (h : ∀ q, (t.cellData q).is_ship = (s.cellData q).is_ship) (sc : List Pos) :
    countShips t sc = countShips s sc := by
  unfold countShips
  exact List.foldl_ext _ _ 0 fun n p _ => by rw [h p]

theorem rowColCheck_congr (s t : State) (limit : Nat) (sc : List Pos)
    (h : ∀ q, (t.cellData q).is_ship = (s.cellData q).is_ship) :
    rowColCheck t limit sc = rowColCheck s limit sc := by
  unfold rowColCheck
  rw [countShips_congr s t h sc]

theorem cnstrCheck_rowcol_congr (s t : State) (c : Cnstr) (hc : c.isRowCol = true)
    (h : ∀ q, (t.cellData q).is_ship = (s.cellData q).is_ship) :
    cnstrCheck t c = cnstrCheck s c := by
  cases c with
  | row limit sc => exact rowColCheck_congr s t limit sc h
  | col limit sc => exact rowColCheck_congr s t limit sc h
  | ship sT dT cT bT sc => simp [Cnstr.isRowCol] at hc
  | water w hh sc => simp [Cnstr.isRowCol] at hc

theorem preRCStep_eq_of (t : State) (c : Cnstr) (h1 : c.isRowCol = true)
    (h2 : cnstrCheck t c = 0) : preRCStep t c = c.scope.foldl forceScopeStep t := by
  unfold preRCStep
  rw [if_pos h1, if_pos h2]

theorem evolves_dotmem {s t : State} (h : Evolves s t) (q : Pos)
    (hd : s.value q = none → '.' ∈ (s.cellData q).dom) :
    t.value q = none → '.' ∈ (t.cellData q).dom := by
  intro hn
  obtain ⟨hsn, hdm⟩ := h.2.2.2.2.2.2 q hn
  rcases hdm with h₁ | h₁
  · rw [h₁]
    exact hd hsn
  · rw [h₁]
    simp

theorem evolves_ne_none {s t : State} (h : Evolves s t) (q : Pos)
    (hn : s.value q ≠ none) : t.value q ≠ none := by
  intro hcon
  exact hn ((h.2.2.2.2.2.2 q hcon).1)

theorem forceWater_value_self (t : State) (p : Pos)
    (h : '.' ∈ (t.cellData p).dom) : (forceWater t p).value p = some '.' := by
  unfold forceWater
  rw [cellSetValue_some, if_pos h]
  simp [State.value, setCell_cellData]

theorem forceScopeStep_assigns (t : State) (ce : Pos)
    (hd : t.value ce = none → '.' ∈ (t.cellData ce).dom) :
    (forceScopeStep t ce).value ce ≠ none := by
  unfold forceScopeStep
  by_cases h : t.value ce = none
  · rw [if_pos h, forceWater_value_self t ce (hd h)]
    simp
  · rw [if_neg h]
    exact h

theorem forceScope_assigns : ∀ (sc : List Pos) (t : State),
    (∀ q ∈ sc, t.value q = none → '.' ∈ (t.cellData q).dom) →
      ∀ q ∈ sc, (sc.foldl forceScopeStep t).value q ≠ none := by
  intro sc
  induction sc with
  | nil =>
    intro t _ q hq
    cases hq
  | cons ce rest ih =>
    intro t hd q hq
    rw [List.foldl_cons]
    have hev : Evolves t (forceScopeStep t ce) := forceScopeStep_evolves t ce
    rcases List.mem_cons.mp hq with h | h
    · subst h
      have h1 : (forceScopeStep t q).value q ≠ none :=
        forceScopeStep_assigns t q (hd q (List.mem_cons_self q rest))
      have hev2 : Evolves (forceScopeStep t q)
          (rest.foldl forceScopeStep (forceScopeStep t q)) :=
        foldl_rel Evolves forceScopeStep forceScopeStep_evolves Evolves.refl
          (fun _ _ _ => Evolves.trans) rest _
      exact evolves_ne_none hev2 q h1
    · exact ih (forceScopeStep t ce)
        (fun r hr => evolves_dotmem hev r (hd r (List.mem_cons_of_mem ce hr))) q h

/-- After the row/column pass, every scope cell of a row or column
constraint that checks exactly satisfied is assigned (the pass forced the
unassigned ones to water, and the check verdicts are stable because the
pass never touches is_ship flags). -/
theorem rcPhase_assigns (s : State)
    (hd : ∀ q ∈ s.cells, s.value q = none → '.' ∈ (s.cellData q).dom)
    (hs : ∀ c ∈ s.constraints, c.isRowCol = true → ∀ q ∈ c.scope, q ∈ s.cells) :
    ∀ c ∈ s.constraints, c.isRowCol = true →
      cnstrCheck (s.constraints.foldl preRCStep s) c = 0 →
      ∀ q ∈ c.scope, (s.constraints.foldl preRCStep s).value q ≠ none := by
  intro c hc hrc hchk q hq
  obtain ⟨l₁, l₂, hdec⟩ := List.append_of_mem hc
  have hev1 : Evolves s (l₁.foldl preRCStep s) :=
    foldl_rel Evolves preRCStep preRCStep_evolves Evolves.refl
      (fun _ _ _ => Evolves.trans) l₁ s
  have hevt : Evolves s (s.constraints.foldl preRCStep s) :=
    foldl_rel Evolves preRCStep preRCStep_evolves Evolves.refl
      (fun _ _ _ => Evolves.trans) s.constraints s
  have hsplit : s.constraints.foldl preRCStep s =
      l₂.foldl preRCStep (preRCStep (l₁.foldl preRCStep s) c) := by
    rw [hdec, List.foldl_append, List.foldl_cons]
  have hchk1 : cnstrCheck (l₁.foldl preRCStep s) c = 0 := by
    rw [cnstrCheck_rowcol_congr s (l₁.foldl preRCStep s) c hrc hev1.2.2.2.2.1]
    rw [← cnstrCheck_rowcol_congr s (s.constraints.foldl preRCStep s) c hrc
      hevt.2.2.2.2.1]
    exact hchk
  have hstep : preRCStep (l₁.foldl preRCStep s) c =
      c.scope.foldl forceScopeStep (l₁.foldl preRCStep s) :=
    preRCStep_eq_of (l₁.foldl preRCStep s) c hrc hchk1
  have hasg : ∀ r ∈ c.scope,
      (c.scope.foldl forceScopeStep (l₁.foldl preRCStep s)).value r ≠ none := by
    refine forceScope_assigns c.scope (l₁.foldl preRCStep s) ?_
    intro r hr
    exact evolves_dotmem hev1 r (hd r (hs c hc hrc r hr))
  have hev2 : Evolves (preRCStep (l₁.foldl preRCStep s) c)
      (l₂.foldl preRCStep (preRCStep (l₁.foldl preRCStep s) c)) :=
    foldl_rel Evolves preRCStep preRCStep_evolves Evolves.refl
      (fun _ _ _ => Evolves.trans) l₂ _
  rw [hsplit]
  refine evolves_ne_none hev2 q ?_
  rw [hstep]
  exact hasg q hq

theorem foldl_fix {α β : Type} (f : β → α → β) :
    ∀ (l : List α) (t : β), (∀ a ∈ l, f t a = t) → l.foldl f t = t := by
  intro l
  induction l with
  | nil =>
    intro t _
    rfl
  | cons a rest ih =>
    intro t h
    rw [List.foldl_cons, h a (List.mem_cons_self a rest)]
    exact ih t fun b hb => h b (List.mem_cons_of_mem a hb)

theorem forceScope_id : ∀ (sc : List Pos) (t : State),
    (∀ q ∈ sc, t.value q ≠ none) → sc.foldl forceScopeStep t = t := by
  intro sc t h
  refine foldl_fix forceScopeStep sc t ?_
  intro ce hce
  unfold forceScopeStep
  rw [if_neg (h ce hce)]

theorem preRCStep_id (t : State) (c : Cnstr)
    (h : c.isRowCol = true → cnstrCheck t c = 0 → ∀ q ∈ c.scope, t.value q ≠ none) :
    preRCStep t c = t := by
  unfold preRCStep
  by_cases h₁ : c.isRowCol
  · rw [if_pos h₁]
    by_cases h₂ : cnstrCheck t c = 0
    · rw [if_pos h₂]
      exact forceScope_id c.scope t (h h₁ h₂)
    · rw [if_neg h₂]
  · rw [if_neg h₁]

theorem preClueStep_id (t : State) (p : Pos)
    (h : t.value p = none ∨ t.value p = some '.') : preClueStep t p = t := by
  unfold preClueStep
  rw [State.value] at h
  rcases h with h | h
  · rw [h]
  · rw [h]
    have hoff : preOffsets '.' = [] := by decide
    show ((preOffsets '.').foldl _ t) = t
    rw [hoff]
    rfl

theorem cluePhase_id (l : List Pos) (t : State)
    (h : ∀ p ∈ l, t.value p = none ∨ t.value p = some '.') :
    l.foldl preClueStep t = t :=
  foldl_fix preClueStep l t fun p hp => preClueStep_id t p (h p hp)

/-- Claim C7 amended: on a board with no pre-placed ship clues (every cell
unassigned or a water clue, with water in the domain of the unassigned
cells, and row/column scopes drawn from the board's cells, as
read_from_file guarantees), preprocessing is idempotent: the second pass
deduces nothing new.  With adjacent ship clues the second pass can change
the board, as the counterexample shows. -/
theorem preprocessing_idempotent_no_clues (s : State)
    (hv : ∀ q ∈ s.cells, s.value q = none ∨ s.value q = some '.')
    (hd : ∀ q ∈ s.cells, s.value q = none → '.' ∈ (s.cellData q).dom)
    (hs : ∀ c ∈ s.constraints, c.isRowCol = true → ∀ q ∈ c.scope, q ∈ s.cells) :
    preprocessing (preprocessing s) = preprocessing s := by
  have hrc : Evolves s (s.constraints.foldl preRCStep s) :=
    foldl_rel Evolves preRCStep preRCStep_evolves Evolves.refl
      (fun _ _ _ => Evolves.trans) s.constraints s
  have hvt : ∀ q ∈ (s.constraints.foldl preRCStep s).cells,
      (s.constraints.foldl preRCStep s).value q = none ∨
        (s.constraints.foldl preRCStep s).value q = some '.' := by
    intro q hq
    rw [hrc.2.1] at hq
    rcases hrc.2.2.2.2.2.1 q with h | h
    · rw [h]
      exact hv q hq
    · exact Or.inr h
  have hpre : preprocessing s = s.constraints.foldl preRCStep s := by
    unfold preprocessing
    exact cluePhase_id _ _ hvt
  rw [hpre]
  have hasg := rcPhase_assigns s hd hs
  have hrc2 : (s.constraints.foldl preRCStep s).constraints.foldl preRCStep
      (s.constraints.foldl preRCStep s) = s.constraints.foldl preRCStep s := by
    rw [hrc.2.2.1]
    exact foldl_fix preRCStep s.constraints _ fun c hc =>
      preRCStep_id _ c (fun h1 h2 => hasg c hc h1 h2)
  unfold preprocessing
  rw [hrc2]
  exact cluePhase_id _ _ hvt

/-- Claim C7 counterexample: running preprocessing twice is not the same as
running it once.  After one pass the top clue at (1, 0) keeps its value
(only its domain was clobbered to water by the adjacent submarine clue);
the second pass then overwrites the clue's value with water. -/
theorem preprocessing_second_pass_changes :
    ((preprocessing adjClueState).cellData ((1 : Int), (0 : Int))).value = some '^' ∧
      ((preprocessing (preprocessing adjClueState)).cellData
        ((1 : Int), (0 : Int))).value = some '.' := by
  constructor
  · decide
  · decide

/-- Claim C7 amended, witness: the amended idempotence theorem applied to
the concrete clue-free board (its zero-target first row is forced to water
by the pass, and the second pass changes nothing). -/
theorem preprocessing_idempotent_no_clues_w :
    preprocessing (preprocessing noClueState) = preprocessing noClueState :=
  preprocessing_idempotent_no_clues noClueState (by decide) (by decide) (by decide)

theorem foldl_inv {α β : Type} (P : β → Prop) (f : β → α → β)
    (h : ∀ b a, P b → P (f b a)) : ∀ (l : List α) (b : β), P b → P (l.foldl f b) := by
  intro l
  induction l with
  | nil =>
    intro b hb
    exact hb
  | cons a rest ih =>
    intro b hb
    exact ih (f b a) (h b a hb)

theorem rGet_rSet_self : ∀ (r : Restore) (p : Pos) (d : List Char),
    rGet (rSet r p d) p = some d := by
  intro r
  induction r with
  | nil =>
    intro p d
    simp [rSet, rGet]
  | cons e rest ih =>
    intro p d
    unfold rSet
    by_cases h : e.1 = p
    · rw [if_pos h]
      simp [rGet]
    · rw [if_neg h]
      rw [rGet, if_neg h]
      exact ih p d

theorem rGet_rSet_ne : ∀ (r : Restore) (p q : Pos) (d : List Char), q ≠ p →
    rGet (rSet r p d) q = rGet r q := by
  intro r
  induction r with
  | nil =>
    intro p q d h
    simp only [rSet, rGet]
    rw [if_neg (fun hh : p = q => h hh.symm)]
  | cons e rest ih =>
    intro p q d h
    unfold rSet
    by_cases he : e.1 = p
    · rw [if_pos he]
      rw [rGet, rGet, if_neg (fun hh : p = q => h hh.symm),
        if_neg (fun hh : e.1 = q => h (he.symm.trans hh).symm)]
    · rw [if_neg he]
      rw [rGet, rGet]
      by_cases he2 : e.1 = q
      · rw [if_pos he2, if_pos he2]
      · rw [if_neg he2, if_neg he2]
        exact ih p q d h

theorem rHas_rSet_self (r : Restore) (p : Pos) (d : List Char) :
    rHas (rSet r p d) p = true := by
  rw [rHas, rGet_rSet_self]
  rfl

theorem rHas_rSet_ne (r : Restore) (p q : Pos) (d : List Char) (h : q ≠ p) :
    rHas (rSet r p d) q = rHas r q := by
  rw [rHas, rGet_rSet_ne r p q d h, rHas]

theorem cellPruneValue_fields (cd : CellData) (v : Char) :
    (cellPruneValue cd v).value = cd.value ∧ (cellPruneValue cd v).dom = cd.dom ∧
      (cellPruneValue cd v).is_ship = cd.is_ship := by
  unfold cellPruneValue cellPruneValueE
  by_cases h : v ∈ cd.curdom <;> simp [h]

theorem pruneKeep_fields (keep : Char → Bool) (cd : CellData) :
    (pruneKeep keep cd).value = cd.value ∧ (pruneKeep keep cd).dom = cd.dom ∧
      (pruneKeep keep cd).is_ship = cd.is_ship := by
  unfold pruneKeep
  refine foldl_inv
    (fun c => c.value = cd.value ∧ c.dom = cd.dom ∧ c.is_ship = cd.is_ship)
    _ ?_ (cellCurDomain cd) cd ⟨rfl, rfl, rfl⟩
  intro c v ⟨h1, h2, h3⟩
  by_cases h : keep v
  · rw [if_pos h]
    exact ⟨h1, h2, h3⟩
  · rw [if_neg h]
    obtain ⟨g1, g2, g3⟩ := cellPruneValue_fields c v
    exact ⟨g1.trans h1, g2.trans h2, g3.trans h3⟩

theorem fcTouch_inv (s0 : State) (w : Nat) (q : Pos) (keep : Char → Bool)
    (fc : FCS) (h : FCInv s0 fc) : FCInv s0 (fcTouch w q keep fc) := by
  unfold fcTouch
  by_cases hf : fc.failed = true
  · rw [if_pos hf]
    exact h
  · rw [if_neg hf]
    by_cases hv : check_if_spot_valid w q.1 q.2 = true
    · rw [if_pos hv]
      by_cases hval : (fc.s.cellData q).value = none
      · rw [if_pos hval]
        have hfalse : fc.failed = false := Bool.not_eq_true _ ▸ hf
        have hrq : rHas (if rHas fc.restore q then fc.restore
            else rSet fc.restore q (fc.s.cellData q).curdom) q = true := by
          by_cases hin : rHas fc.restore q = true
          · rw [if_pos hin]
            exact hin
          · rw [if_neg hin]
            exact rHas_rSet_self _ _ _
        have hrne : ∀ x, x ≠ q → rHas (if rHas fc.restore q then fc.restore
            else rSet fc.restore q (fc.s.cellData q).curdom) x = rHas fc.restore x := by
          intro x hx
          by_cases hin : rHas fc.restore q = true
          · rw [if_pos hin]
          · rw [if_neg hin]
            exact rHas_rSet_ne _ _ _ _ hx
        refine ⟨?_, ?_, ?_⟩
        · intro hfl
          simp only at hfl
          refine ⟨q, hrq, ?_⟩
          rw [setCell_cellData, if_pos rfl]
          exact List.isEmpty_iff.mp hfl
        · intro hfl x hx
          simp only at hfl
          rw [setCell_cellData]
          by_cases hxq : x = q
          · rw [if_pos hxq]
            intro hcon
            rw [hcon] at hfl
            simp [List.isEmpty] at hfl
          · rw [if_neg hxq]
            rw [hrne x hxq] at hx
            exact h.2.1 hfalse x hx
        · intro x hx
          rw [setCell_cellData] at hx
          by_cases hxq : x = q
          · rw [hxq]
            exact hrq
          · rw [if_neg hxq] at hx
            rw [hrne x hxq]
            exact h.2.2 x hx
      · rw [if_neg hval]
        exact h
    · rw [if_neg hv]
      exact h

theorem fcScopeStep_inv (s0 : State) (fc : FCS) (ce : Pos)
    (h : FCInv s0 fc) : FCInv s0 (fcScopeStep fc ce) := by
  unfold fcScopeStep
  by_cases hf : fc.failed = true
  · rw [if_pos hf]
    exact h
  · rw [if_neg hf]
    by_cases hval : (fc.s.cellData ce).value = none
    · rw [if_pos hval]
      have hfalse : fc.failed = false := Bool.not_eq_true _ ▸ hf
      refine ⟨?_, ?_, ?_⟩
      · intro hfl
        simp only at hfl
        refine ⟨ce, rHas_rSet_self _ _ _, ?_⟩
        rw [setCell_cellData, if_pos rfl]
        exact List.isEmpty_iff.mp hfl
      · intro hfl x hx
        simp only at hfl
        rw [setCell_cellData]
        by_cases hxq : x = ce
        · rw [if_pos hxq]
          intro hcon
          rw [hcon] at hfl
          simp [List.isEmpty] at hfl
        · rw [if_neg hxq]
          rw [rHas_rSet_ne _ _ _ _ hxq] at hx
          exact h.2.1 hfalse x hx
      · intro x hx
        rw [setCell_cellData] at hx
        by_cases hxq : x = ce
        · rw [hxq]
          exact rHas_rSet_self _ _ _
        · rw [if_neg hxq] at hx
          rw [rHas_rSet_ne _ _ _ _ hxq]
          exact h.2.2 x hx
    · rw [if_neg hval]
      exact h

theorem fcRCStep_inv (s0 : State) (fc : FCS) (c : Cnstr)
    (h : FCInv s0 fc) : FCInv s0 (fcRCStep fc c) := by
  unfold fcRCStep
  by_cases hf : fc.failed = true
  · rw [if_pos hf]
    exact h
  · rw [if_neg hf]
    by_cases hchk : cnstrCheck fc.s c = 0
    · rw [if_pos hchk]
      exact foldl_inv (FCInv s0) fcScopeStep
        (fun b a hb => fcScopeStep_inv s0 b a hb) c.scope fc h
    · rw [if_neg hchk]
      exact h

theorem forward_checking_inv (s : State) (p : Pos) :
    FCInv s (forward_checking p s []) := by
  have h0 : FCInv s { s := s, restore := [], failed := false } := by
    refine ⟨?_, ?_, ?_⟩
    · intro h
      simp at h
    · intro _ q hq
      simp [rHas, rGet] at hq
    · intro q hq
      exact absurd rfl hq
  have h1 : FCInv s (fcPhase1 p s []) :=
    foldl_inv (FCInv s) fcRCStep (fun b a hb => fcRCStep_inv s b a hb)
      (s.cellCnstr p) _ h0
  unfold forward_checking
  cases hval : ((fcPhase1 p s []).s.cellData p).value with
  | none => exact h1
  | some c =>
    exact foldl_inv (FCInv s) _
      (fun b e hb => fcTouch_inv s s.width (p.1 + e.1.1, p.2 + e.1.2) e.2 b hb)
      _ _ h1

/-- Claim C4: forward checking communicates local inconsistency through
its boolean result (the embedding is a total function: no exception is
raised): the failed flag is raised exactly when some touched cell's
current domain has been pruned empty, and every cell whose current domain
changed is recorded in the caller-owned restore map. -/
theorem forward_checking_failure_iff (s : State) (p : Pos) :
    ((forward_checking p s []).failed = true ↔
      ∃ q, rHas (forward_checking p s []).restore q = true ∧
        ((forward_checking p s []).s.cellData q).curdom = []) ∧
    ∀ q,
      ((forward_checking p s []).s.cellData q).curdom ≠ (s.cellData q).curdom →
        rHas (forward_checking p s []).restore q = true := by
  have hinv := forward_checking_inv s p
  refine ⟨⟨hinv.1, ?_⟩, hinv.2.2⟩
  rintro ⟨q, hq, hempty⟩
  cases hfc : (forward_checking p s []).failed
  · exact absurd hempty (hinv.2.1 hfc q hq)
  · rfl

/-- Claim C4 witness: on the concrete board, cell (1, 0) has its current
domain pruned by forward checking from the submarine at (0, 0), and the
theorem certifies the pruning was recorded in the restore map. -/

theorem forward_checking_failure_iff_w :
    rHas (forward_checking ((0 : Int), (0 : Int)) fcState []).restore
      ((1 : Int), (0 : Int)) = true :=
  (forward_checking_failure_iff fcState ((0 : Int), (0 : Int))).2
    ((1 : Int), (0 : Int)) (by decide)

theorem rGet_none_iff : ∀ (r : Restore) (q : Pos),
    rGet r q = none ↔ q ∉ r.map Prod.fst := by
  intro r
  induction r with
  | nil =>
    intro q
    simp [rGet]
  | cons e rest ih =>
    intro q
    rw [rGet, List.map_cons]
    by_cases h : e.1 = q
    · rw [if_pos h]
      refine iff_of_false (by simp) ?_
      intro hh
      exact hh (by rw [← h]; exact List.mem_cons_self _ _)
    · rw [if_neg h, ih q]
      constructor
      · intro hni hmem
        rcases List.mem_cons.mp hmem with h1 | h1
        · exact h h1.symm
        · exact hni h1
      · intro hni hmem
        exact hni (List.mem_cons_of_mem _ hmem)

theorem rHas_false_iff (r : Restore) (q : Pos) :
    rHas r q = false ↔ rGet r q = none := by
  rw [rHas]
  cases rGet r q <;> simp

theorem rSet_keys_sub : ∀ (r : Restore) (p : Pos) (d : List Char) (x : Pos),
    x ∈ (rSet r p d).map Prod.fst → x ∈ r.map Prod.fst ∨ x = p := by
  intro r
  induction r with
  | nil =>
    intro p d x hx
    right
    simpa [rSet] using hx
  | cons e rest ih =>
    intro p d x hx
    rw [List.map_cons]
    unfold rSet at hx
    by_cases h : e.1 = p
    · rw [if_pos h, List.map_cons] at hx
      rcases List.mem_cons.mp hx with h1 | h1
      · exact Or.inr h1
      · exact Or.inl (List.mem_cons_of_mem _ h1)
    · rw [if_neg h, List.map_cons] at hx
      rcases List.mem_cons.mp hx with h1 | h1
      · refine Or.inl ?_
        rw [h1]
        exact List.mem_cons_self _ _
      · rcases ih p d x h1 with h2 | h2
        · exact Or.inl (List.mem_cons_of_mem _ h2)
        · exact Or.inr h2

theorem rSet_keys_nodup : ∀ (r : Restore) (p : Pos) (d : List Char),
    (r.map Prod.fst).Nodup → ((rSet r p d).map Prod.fst).Nodup := by
  intro r
  induction r with
  | nil =>
    intro p d _
    simp [rSet]
  | cons e rest ih =>
    intro p d hnd
    rw [List.map_cons, List.nodup_cons] at hnd
    unfold rSet
    by_cases h : e.1 = p
    · rw [if_pos h]
      rw [List.map_cons, List.nodup_cons]
      exact ⟨h ▸ hnd.1, hnd.2⟩
    · rw [if_neg h]
      rw [List.map_cons, List.nodup_cons]
      refine ⟨?_, ih p d hnd.2⟩
      intro hmem
      rcases rSet_keys_sub rest p d e.1 hmem with h1 | h1
      · exact hnd.1 h1
      · exact h h1

theorem fcTouch_rinv (s0 : State) (w : Nat) (q : Pos) (keep : Char → Bool)
    (fc : FCS) (h : RInv s0 fc) : RInv s0 (fcTouch w q keep fc) := by
  unfold fcTouch
  by_cases hf : fc.failed = true
  · rw [if_pos hf]
    exact h
  · rw [if_neg hf]
    by_cases hv : check_if_spot_valid w q.1 q.2 = true
    · rw [if_pos hv]
      by_cases hval : (fc.s.cellData q).value = none
      · rw [if_pos hval]
        by_cases hin : rHas fc.restore q = true
        · rw [if_pos hin]
          refine ⟨h.1, ?_, h.2.2.1, ?_⟩
          · intro x hx
            have hxq : x ≠ q := by
              intro hh
              rw [hh] at hx
              rw [rHas, hx] at hin
              cases hin
            rw [setCell_cellData, if_neg hxq]
            exact h.2.1 x hx
          · intro x
            rw [setCell_cellData]
            by_cases hxq : x = q
            · rw [if_pos hxq, (pruneKeep_fields keep _).1, hxq]
              exact h.2.2.2 q
            · rw [if_neg hxq]
              exact h.2.2.2 x
        · rw [if_neg hin]
          have hget : rGet fc.restore q = none :=
            (rHas_false_iff fc.restore q).mp (Bool.not_eq_true _ ▸ hin)
          refine ⟨?_, ?_, rSet_keys_nodup _ _ _ h.2.2.1, ?_⟩
          · intro x d hx
            by_cases hxq : x = q
            · subst hxq
              rw [rGet_rSet_self] at hx
              injection hx with hx
              rw [← hx]
              exact h.2.1 x hget
            · rw [rGet_rSet_ne _ _ _ _ hxq] at hx
              exact h.1 x d hx
          · intro x hx
            by_cases hxq : x = q
            · subst hxq
              rw [rGet_rSet_self] at hx
              cases hx
            · rw [rGet_rSet_ne _ _ _ _ hxq] at hx
              rw [setCell_cellData, if_neg hxq]
              exact h.2.1 x hx
          · intro x
            rw [setCell_cellData]
            by_cases hxq : x = q
            · rw [if_pos hxq, (pruneKeep_fields keep _).1, hxq]
              exact h.2.2.2 q
            · rw [if_neg hxq]
              exact h.2.2.2 x
      · rw [if_neg hval]
        exact h
    · rw [if_neg hv]
      exact h

theorem fcScopeStep_rinv (s0 : State) (fc : FCS) (ce : Pos) (h : RInv s0 fc)
    (hfresh : (fc.s.cellData ce).value = none → rHas fc.restore ce = false) :
    RInv s0 (fcScopeStep fc ce) := by
  unfold fcScopeStep
  by_cases hf : fc.failed = true
  · rw [if_pos hf]
    exact h
  · rw [if_neg hf]
    by_cases hval : (fc.s.cellData ce).value = none
    · rw [if_pos hval]
      have hget : rGet fc.restore ce = none :=
        (rHas_false_iff fc.restore ce).mp (hfresh hval)
      refine ⟨?_, ?_, rSet_keys_nodup _ _ _ h.2.2.1, ?_⟩
      · intro x d hx
        by_cases hxq : x = ce
        · subst hxq
          rw [rGet_rSet_self] at hx
          injection hx with hx
          rw [← hx]
          exact h.2.1 x hget
        · rw [rGet_rSet_ne _ _ _ _ hxq] at hx
          exact h.1 x d hx
      · intro x hx
        by_cases hxq : x = ce
        · subst hxq
          rw [rGet_rSet_self] at hx
          cases hx
        · rw [rGet_rSet_ne _ _ _ _ hxq] at hx
          rw [setCell_cellData, if_neg hxq]
          exact h.2.1 x hx
      · intro x
        rw [setCell_cellData]
        by_cases hxq : x = ce
        · rw [if_pos hxq, (pruneKeep_fields keepWater _).1, hxq]
          exact h.2.2.2 ce
        · rw [if_neg hxq]
          exact h.2.2.2 x
    · rw [if_neg hval]
      exact h

theorem fcScopeStep_keys (fc : FCS) (ce : Pos) (q : Pos)
    (h : rHas (fcScopeStep fc ce).restore q = true) :
    rHas fc.restore q = true ∨ q = ce := by
  unfold fcScopeStep at h
  by_cases hf : fc.failed = true
  · rw [if_pos hf] at h
    exact Or.inl h
  · rw [if_neg hf] at h
    by_cases hval : (fc.s.cellData ce).value = none
    · rw [if_pos hval] at h
      by_cases hq : q = ce
      · exact Or.inr hq
      · rw [rHas_rSet_ne _ _ _ _ hq] at h
        exact Or.inl h
    · rw [if_neg hval] at h
      exact Or.inl h

theorem fcScope_keys : ∀ (sc : List Pos) (fc : FCS) (q : Pos),
    rHas (sc.foldl fcScopeStep fc).restore q = true →
    rHas fc.restore q = true ∨ q ∈ sc := by
  intro sc
  induction sc with
  | nil =>
    intro fc q h
    exact Or.inl h
  | cons ce rest ih =>
    intro fc q h
    rw [List.foldl_cons] at h
    rcases ih (fcScopeStep fc ce) q h with h1 | h1
    · rcases fcScopeStep_keys fc ce q h1 with h2 | h2
      · exact Or.inl h2
      · exact Or.inr (h2 ▸ List.mem_cons_self ce rest)
    · exact Or.inr (List.mem_cons_of_mem ce h1)

theorem fcScopeStep_value (fc : FCS) (ce : Pos) (q : Pos) :
    ((fcScopeStep fc ce).s.cellData q).value = (fc.s.cellData q).value := by
  unfold fcScopeStep
  by_cases hf : fc.failed = true
  · rw [if_pos hf]
  · rw [if_neg hf]
    by_cases hval : (fc.s.cellData ce).value = none
    · rw [if_pos hval]
      rw [setCell_cellData]
      by_cases hq : q = ce
      · rw [if_pos hq, (pruneKeep_fields keepWater _).1, hq]
      · rw [if_neg hq]
    · rw [if_neg hval]

theorem fcScope_rinv (s0 : State) : ∀ (sc : List Pos) (fc : FCS),
    sc.Nodup → RInv s0 fc →
    (∀ q ∈ sc, (fc.s.cellData q).value = none → rHas fc.restore q = false) →
    RInv s0 (sc.foldl fcScopeStep fc) := by
  intro sc
  induction sc with
  | nil =>
    intro fc _ h _
    exact h
  | cons ce rest ih =>
    intro fc hnd h hfresh
    rw [List.foldl_cons]
    rw [List.nodup_cons] at hnd
    have h' : RInv s0 (fcScopeStep fc ce) :=
      fcScopeStep_rinv s0 fc ce h (hfresh ce (List.mem_cons_self ce rest))
    refine ih (fcScopeStep fc ce) hnd.2 h' ?_
    intro q hq hval
    have hqce : q ≠ ce := fun hh => hnd.1 (hh ▸ hq)
    cases hhas : rHas (fcScopeStep fc ce).restore q
    · rfl
    · exfalso
      rcases fcScopeStep_keys fc ce q hhas with h1 | h1
      · have hvfc : (fc.s.cellData q).value = none := by
          rw [← fcScopeStep_value fc ce q]
          exact hval
        rw [hfresh q (List.mem_cons_of_mem ce hq) hvfc] at h1
        cases h1
      · exact hqce h1

theorem fcRCStep_keys (fc : FCS) (c : Cnstr) (q : Pos)
    (h : rHas (fcRCStep fc c).restore q = true) :
    rHas fc.restore q = true ∨ q ∈ c.scope := by
  unfold fcRCStep at h
  by_cases hf : fc.failed = true
  · rw [if_pos hf] at h
    exact Or.inl h
  · rw [if_neg hf] at h
    by_cases hchk : cnstrCheck fc.s c = 0
    · rw [if_pos hchk] at h
      exact fcScope_keys c.scope fc q h
    · rw [if_neg hchk] at h
      exact Or.inl h

theorem fcRC_rinv (s0 : State) (p : Pos) (hp : (s0.cellData p).value ≠ none) :
    ∀ (cs : List Cnstr) (fc : FCS),
      cs.Nodup → (∀ c ∈ cs, c.scope.Nodup) →
      (∀ c₁ ∈ cs, ∀ c₂ ∈ cs, c₁ ≠ c₂ → ∀ q ∈ c₁.scope, q ∈ c₂.scope → q = p) →
      RInv s0 fc →
      (∀ q, rHas fc.restore q = true → ∀ c ∈ cs, q ∈ c.scope → q = p) →
      RInv s0 (cs.foldl fcRCStep fc) := by
  intro cs
  induction cs with
  | nil =>
    intro fc _ _ _ h _
    exact h
  | cons c rest ih =>
    intro fc hnd hscnd hdisj h hkb
    rw [List.foldl_cons]
    rw [List.nodup_cons] at hnd
    have hfresh : ∀ q ∈ c.scope, (fc.s.cellData q).value = none →
        rHas fc.restore q = false := by
      intro q hq hval
      cases hhas : rHas fc.restore q
      · rfl
      · exfalso
        have hqp : q = p := hkb q hhas c (List.mem_cons_self c rest) hq
        rw [hqp, h.2.2.2 p] at hval
        exact hp hval
    have h' : RInv s0 (fcRCStep fc c) := by
      unfold fcRCStep
      by_cases hf : fc.failed = true
      · rw [if_pos hf]
        exact h
      · rw [if_neg hf]
        by_cases hchk : cnstrCheck fc.s c = 0
        · rw [if_pos hchk]
          exact fcScope_rinv s0 c.scope fc
            (hscnd c (List.mem_cons_self c rest)) h hfresh
        · rw [if_neg hchk]
          exact h
    refine ih (fcRCStep fc c) hnd.2
      (fun c' hc' => hscnd c' (List.mem_cons_of_mem c hc'))
      (fun c₁ h₁ c₂ h₂ hne q hq₁ hq₂ =>
        hdisj c₁ (List.mem_cons_of_mem c h₁) c₂ (List.mem_cons_of_mem c h₂)
          hne q hq₁ hq₂) h' ?_
    intro q hq c' hc' hqsc
    rcases fcRCStep_keys fc c q hq with h1 | h1
    · exact hkb q h1 c' (List.mem_cons_of_mem c hc') hqsc
    · have hcc' : c ≠ c' := fun hh => hnd.1 (hh ▸ hc')
      exact hdisj c (List.mem_cons_self c rest) c'
        (List.mem_cons_of_mem c hc') hcc' q h1 hqsc

theorem forward_checking_rinv (s : State) (p : Pos)
    (hp : (s.cellData p).value ≠ none)
    (hlnd : (s.cellCnstr p).Nodup)
    (hnd : ∀ c ∈ s.cellCnstr p, c.scope.Nodup)
    (hdisj : ∀ c₁ ∈ s.cellCnstr p, ∀ c₂ ∈ s.cellCnstr p, c₁ ≠ c₂ →
      ∀ q ∈ c₁.scope, q ∈ c₂.scope → q = p) :
    RInv s (forward_checking p s []) := by
  have h0 : RInv s { s := s, restore := [], failed := false } := by
    refine ⟨?_, ?_, ?_, ?_⟩
    · intro q d hq
      cases hq
    · intro q _
      rfl
    · simp
    · intro q
      rfl
  have h1 : RInv s (fcPhase1 p s []) := by
    refine fcRC_rinv s p hp (s.cellCnstr p)
      { s := s, restore := [], failed := false } hlnd hnd hdisj h0 ?_
    intro q hq
    simp [rHas, rGet] at hq
  unfold forward_checking
  cases hval : ((fcPhase1 p s []).s.cellData p).value with
  | none => exact h1
  | some c =>
    exact foldl_inv (RInv s) _
      (fun b e hb => fcTouch_rinv s s.width (p.1 + e.1.1, p.2 + e.1.2) e.2 b hb)
      _ _ h1

theorem recover_curdom : ∀ (r : Restore) (u : State) (q : Pos),
    (r.map Prod.fst).Nodup →
    ((recover_var r u).cellData q).curdom =
      (match rGet r q with
       | some d => d
       | none => (u.cellData q).curdom) := by
  intro r
  induction r with
  | nil =>
    intro u q _
    rfl
  | cons e rest ih =>
    intro u q hnd
    rw [List.map_cons, List.nodup_cons] at hnd
    have hstep : recover_var (e :: rest) u =
        recover_var rest (u.setCell e.1 { u.cellData e.1 with curdom := e.2 }) := rfl
    rw [hstep]
    by_cases hq : e.1 = q
    · have hget : rGet (e :: rest) q = some e.2 := by
        rw [rGet, if_pos hq]
      rw [hget]
      have hnone : rGet rest q = none :=
        (rGet_none_iff rest q).mpr (hq ▸ hnd.1)
      rw [ih _ q hnd.2, hnone]
      rw [setCell_cellData, if_pos hq.symm]
    · have hget : rGet (e :: rest) q = rGet rest q := by
        rw [rGet, if_neg hq]
      rw [hget]
      rw [ih _ q hnd.2]
      cases hrest : rGet rest q with
      | some d => rfl
      | none =>
        rw [setCell_cellData, if_neg (fun hh : q = e.1 => hq hh.symm)]

/-- Claim C2 amended: the restore-map round trip does hold for one frame's
forward checking: applying recover_var to the restore map returns every
cell's current domain to its value from just before the forward-checking
call (under the structural facts read_from_file guarantees: the assigned
cell's two constraints are distinct with duplicate-free scopes meeting
only at the assigned cell).  The claim as stated fails only because a
frame that exhausts a cell's values resets that cell to its full static
domain rather than its pre-branch current domain, as the counterexample
shows. -/
theorem forward_checking_recover_roundtrip (s : State) (p : Pos)
    (hp : (s.cellData p).value ≠ none)
    (hlnd : (s.cellCnstr p).Nodup)
    (hnd : ∀ c ∈ s.cellCnstr p, c.scope.Nodup)
    (hdisj : ∀ c₁ ∈ s.cellCnstr p, ∀ c₂ ∈ s.cellCnstr p, c₁ ≠ c₂ →
      ∀ q ∈ c₁.scope, q ∈ c₂.scope → q = p) :
    ∀ q, ((recover_var (forward_checking p s []).restore
      (forward_checking p s []).s).cellData q).curdom = (s.cellData q).curdom := by
  intro q
  have hr := forward_checking_rinv s p hp hlnd hnd hdisj
  rw [recover_curdom _ _ q hr.2.2.1]
  cases hget : rGet (forward_checking p s []).restore q with
  | none => exact hr.2.1 q hget
  | some d => exact (hr.1 q d hget).symm ▸ rfl

/-- Claim C2 amended, witness: the round-trip theorem applied to the
concrete board of the forward-checking witness, at the pruned cell. -/
theorem forward_checking_recover_roundtrip_w :
    ((recover_var (forward_checking ((0 : Int), (0 : Int)) fcState []).restore
      (forward_checking ((0 : Int), (0 : Int)) fcState []).s).cellData
        ((1 : Int), (0 : Int))).curdom =
      (fcState.cellData ((1 : Int), (0 : Int))).curdom :=
  forward_checking_recover_roundtrip fcState ((0 : Int), (0 : Int))
    (by decide) (by decide) (by decide) (by decide) ((1 : Int), (0 : Int))

theorem tryStep_inl (bt : State → State × Sol) (s : State) (p : Pos) (v : Char)
    (r : State × Sol) (h : tryStep bt s p v = Sum.inl r) :
    ∃ s2, r = bt s2 ∧ (bt s2).2 ≠ [] := by
  unfold tryStep at h
  by_cases h1 : partial_check ((s.setValue p (some v)).setIsShip p (v != '.')) p
  · rw [if_pos h1] at h
    by_cases h2 : (forward_checking p
        ((s.setValue p (some v)).setIsShip p (v != '.')) []).failed = false
    · rw [if_pos h2] at h
      by_cases h3 : (bt (forward_checking p
          ((s.setValue p (some v)).setIsShip p (v != '.')) []).s).2 = []
      · rw [if_pos h3] at h
        cases h
      · rw [if_neg h3] at h
        injection h with h
        exact ⟨_, h.symm, h3⟩
    · rw [if_neg h2] at h
      cases h
  · rw [if_neg h1] at h
    cases h

theorem tryValues_sound (bt : State → State × Sol)
    (hbt : ∀ s, (bt s).2 ≠ [] →
      full_check (bt s).1 = true ∧ (bt s).2 = solutionList (bt s).1) :
    ∀ (vs : List Char) (s : State) (p : Pos),
      (tryValues bt s p vs).2 ≠ [] →
      full_check (tryValues bt s p vs).1 = true ∧
        (tryValues bt s p vs).2 = solutionList (tryValues bt s p vs).1 := by
  intro vs
  induction vs with
  | nil =>
    intro s p h
    exact absurd rfl h
  | cons v rest ih =>
    intro s p h
    rw [tryValues] at h ⊢
    cases hstep : tryStep bt s p v with
    | inl r =>
      obtain ⟨s2, hr, hne⟩ := tryStep_inl bt s p v r hstep
      show full_check r.1 = true ∧ r.2 = solutionList r.1
      rw [hr]
      exact hbt s2 hne
    | inr s' =>
      rw [hstep] at h
      exact ih s' p h

/-- Shared soundness core of the search driver: a non-empty return from
backtrack comes from a frame in which full_check held of the returned
state, and the returned list is that state's solution list. -/
theorem backtrackAux_sound : ∀ (fuel : Nat) (s : State),
    (backtrackAux fuel s).2 ≠ [] →
    full_check (backtrackAux fuel s).1 = true ∧
      (backtrackAux fuel s).2 = solutionList (backtrackAux fuel s).1 := by
  intro fuel
  induction fuel with
  | zero =>
    intro s h
    exact absurd rfl h
  | succ fuel ih =>
    intro s h
    rw [backtrackAux] at h ⊢
    by_cases hfc : full_check s
    · rw [if_pos hfc] at h ⊢
      exact ⟨hfc, rfl⟩
    · rw [if_neg hfc] at h ⊢
      cases hsel : select_unassigned_var s with
      | none =>
        rw [hsel] at h
        exact absurd rfl h
      | some p =>
        rw [hsel] at h
        have h' : (btFrame (backtrackAux fuel) s p).2 ≠ [] := h
        show full_check (btFrame (backtrackAux fuel) s p).1 = true ∧
          (btFrame (backtrackAux fuel) s p).2 =
            solutionList (btFrame (backtrackAux fuel) s p).1
        unfold btFrame at h' ⊢
        by_cases htv : (tryValues (backtrackAux fuel) s p
            (cellCurDomain (s.cellData p))).2 = []
        · rw [if_pos htv] at h'
          exact absurd rfl h'
        · rw [if_neg htv]
          exact tryValues_sound (backtrackAux fuel) ih _ s p htv

theorem rowColCheck_cases (s : State) (limit : Nat) (sc : List Pos) :
    rowColCheck s limit sc = 0 ∨ rowColCheck s limit sc = 1 ∨
      rowColCheck s limit sc = 2 := by
  simp only [rowColCheck]
  by_cases h1 : countShips s sc = limit
  · simp [h1]
  · by_cases h2 : countShips s sc < limit
    · simp [h1, h2]
    · simp [h1, h2]

theorem shipCheck_cases (s : State) (sT dT cT bT : Nat) (sc : List Pos) :
    shipCheck s sT dT cT bT sc = 0 ∨ shipCheck s sT dT cT bT sc = 2 := by
  simp only [shipCheck]
  split
  · exact Or.inr rfl
  · split
    · exact Or.inl rfl
    · exact Or.inr rfl

theorem cnstrCheck_nonwater_cases (s : State) (c : Cnstr) (h : c.isWater = false) :
    cnstrCheck s c = 0 ∨ cnstrCheck s c = 1 ∨ cnstrCheck s c = 2 := by
  cases c with
  | row limit sc => exact rowColCheck_cases s limit sc
  | col limit sc => exact rowColCheck_cases s limit sc
  | ship sT dT cT bT sc =>
    rcases shipCheck_cases s sT dT cT bT sc with h1 | h1
    · exact Or.inl h1
    · exact Or.inr (Or.inr h1)
  | water w hh sc => simp [Cnstr.isWater] at h

/-- Claim C1 amended: any non-empty return of backtrack comes from a state
passing full_check: every cell is assigned and every RowCount, ColumnCount
and FleetCount constraint's check() is exactly satisfied (0).  full_check
skips the Adjacency (water) constraint, whose per-cell check is never
"satisfied" at a solution: it returns "incomplete" (1) on water cells and
no verdict on consistent ship cells, as the counterexample shows. -/
theorem backtrack_solution_full_check (fuel : Nat) (s : State)
    (h : (backtrackAux fuel s).2 ≠ []) :
    (∀ c ∈ (backtrackAux fuel s).1.constraints, c.isWater = false →
      cnstrCheck (backtrackAux fuel s).1 c = 0) ∧
      ∀ p ∈ (backtrackAux fuel s).1.cells,
        ((backtrackAux fuel s).1.cellData p).value.isSome = true := by
  obtain ⟨hfc, _⟩ := backtrackAux_sound fuel s h
  rw [full_check, Bool.and_eq_true, List.all_eq_true, List.all_eq_true] at hfc
  refine ⟨?_, fun p hp => hfc.2 p hp⟩
  intro c hc hw
  have hcl := hfc.1 c hc
  rw [hw, Bool.false_or, Bool.and_eq_true] at hcl
  rcases cnstrCheck_nonwater_cases (backtrackAux fuel s).1 c hw with h0 | h1 | h2
  · exact h0
  · exact absurd h1 (bne_iff_ne.mp hcl.1)
  · exact absurd h2 (bne_iff_ne.mp hcl.2)

/-- Claim C1 amended, witness: the amended theorem applied to the
concrete solvable puzzle, whose solver run returns a non-empty solution. -/
theorem backtrack_solution_full_check_w :
    (∀ c ∈ (backtrackAux 5 solvableState).1.constraints, c.isWater = false →
      cnstrCheck (backtrackAux 5 solvableState).1 c = 0) ∧
      ∀ p ∈ (backtrackAux 5 solvableState).1.cells,
        ((backtrackAux 5 solvableState).1.cellData p).value.isSome = true :=
  backtrack_solution_full_check 5 solvableState (by decide)

/-- Claim C1 counterexample: on the concrete solvable puzzle the solver
returns a solution, and at that very state the Adjacency (water)
constraint's check on the solved cell evaluates to 1 ("incomplete" in the
tri-state verdict), not to "satisfied" (0): the claim that every
constraint including Adjacency checks "satisfied" at a returned solution
is false. -/
theorem backtrack_adjacency_not_satisfied :
    (backtrackAux 5 solvableState).2 ≠ [] ∧
      checkWaterC 1 1 (backtrackAux 5 solvableState).1 ((0 : Int), (0 : Int)) =
        some 1 :=
  ⟨by decide, by decide⟩

/-- Claim C5 amended: backtrack surfaces global unsatisfiability as the
empty list (the same value the failing frames propagate), not as a
distinct result variant; any non-empty return is the full_check-passing
solution list. -/
theorem backtrack_failure_empty_list (fuel : Nat) (s : State) :
    (backtrackAux fuel s).2 = [] ∨
      (full_check (backtrackAux fuel s).1 = true ∧
        (backtrackAux fuel s).2 = solutionList (backtrackAux fuel s).1) := by
  by_cases h : (backtrackAux fuel s).2 = []
  · exact Or.inl h
  · exact Or.inr (backtrackAux_sound fuel s h)

/-- Claim C5 counterexample: on the concrete unsatisfiable puzzle the
search exhausts the root and the caller receives the empty list, exactly
the "empty value" the claim rules out; the return type has no distinct
unsatisfiability variant. -/
theorem backtrack_unsat_returns_empty :
    (backtrackAux 5 unsatState).2 = ([] : Sol) := by decide

/-- Claim C2 counterexample: a failing backtrack frame does not leave the
touched cell's current domain bit-for-bit equal to its pre-branch value:
the frame exhausts the selected cell's values and var.reset() widens its
current domain to the full static domain (7 symbols), not to the
pre-branch singleton. -/
theorem backtrack_reset_widens_domain :
    (backtrackAux 5 prunedState).2 = ([] : Sol) ∧
      (prunedState.cellData ((0 : Int), (0 : Int))).curdom = ['S'] ∧
      ((backtrackAux 5 prunedState).1.cellData ((0 : Int), (0 : Int))).curdom =
        fullDom ∧ fullDom ≠ ['S'] :=
  ⟨by decide, by decide, by decide, by decide⟩

end Battle
